import Mathlib

/-!
Verification development for the rik_screener repository.

The development shallowly embeds the core of the repository — the formula
evaluation engine (`criteria_setup/calculation_utils/formula_engine.py`),
the standard formula catalog (`standard_formulas.py`), the financial data
loader/merger (`data_loaders.py`, `data_mergers.py`), the configuration
validator (`workflow/config_validator.py`) and the scoring threshold logic
(`post_processing/scoring.py`) — as executable Lean definitions over an
explicit table model, and proves the specified properties about them.

Modelling conventions:
* A pandas DataFrame is a `Table`: an ordered association list of named
  columns, each a list of `Cell`s.  A pandas scalar is a `Cell`:
  a numeric value (modelled as a rational — all claim-relevant arithmetic
  is exact decimal arithmetic), a string, a boolean, or NaN (`missing`).
* `pd.to_numeric(..., errors="coerce")` is modelled by `toNumericCell`,
  with a plain decimal parser for strings.
* Python `eval` over the substituted formula string is modelled by a
  tokenizer/recursive-descent evaluation of the arithmetic fragment the
  repository formulas use; numpy broadcasting is modelled on `NpVal`.
  Transcendental functions (sqrt/log/exp/pow with fractional exponents)
  fall outside the rational-value model and make evaluation fail; none of
  the verified properties exercise them.  Division is total rational
  division; IEEE inf/nan propagation is outside the model and outside the
  verified properties.
-/

/-- A single pandas cell: a numeric value, a string, a boolean, or NaN. -/
inductive Cell where
  | num (q : ℚ)
  | str (s : String)
  | boolv (b : Bool)
  | missing
deriving DecidableEq

/-- Numeric value of a decimal digit character. -/
def digitVal (c : Char) : ℕ := c.toNat - Char.toNat '0'

/-- Natural number denoted by a list of decimal digit characters. -/
def natOfDigits (cs : List Char) : ℕ :=
  cs.foldl (fun n c => n * 10 + digitVal c) 0

/-- Decimal parser modelling the numeric coercion `pd.to_numeric` applies to
strings: an optional sign, an integer part and an optional fractional part.
Anything else fails to coerce. -/
def parseDecimal (cs : List Char) : Option ℚ :=
  match cs with
  | [] => none
  | c :: rest =>
    let signBody : ℚ × List Char :=
      if c = '-' then (-1, rest) else if c = '+' then (1, rest) else (1, cs)
    let body := signBody.2
    let intPart := body.takeWhile Char.isDigit
    let restA := body.dropWhile Char.isDigit
    match restA with
    | [] => if intPart = [] then none else some (signBody.1 * (natOfDigits intPart : ℚ))
    | '.' :: fracRest =>
      let fracPart := fracRest.takeWhile Char.isDigit
      if fracRest.dropWhile Char.isDigit ≠ [] then none
      else if intPart = [] ∧ fracPart = [] then none
      else some (signBody.1 *
        ((natOfDigits intPart : ℚ) + (natOfDigits fracPart : ℚ) / (10 ^ fracPart.length)))
    | _ => none

/-- Model of `pd.to_numeric(x, errors="coerce")` on a single cell: numeric
cells pass through, strings are parsed, booleans coerce to 0/1, and NaN or
unparseable values become NaN (`none`). -/
def toNumericCell : Cell → Option ℚ
  | .num q => some q
  | .str s => parseDecimal s.data
  | .boolv b => some (if b then 1 else 0)
  | .missing => none

/-- Model of `np.nan_to_num(values, nan=1.0)` composed with the numeric
coercion: the sentinel for a missing or non-numeric cell is `1`, not `0`
(`formula_engine.create_formula`, lines 69-70). -/
def bindNumeric (c : Cell) : ℚ := (toNumericCell c).getD 1

/-- A pandas DataFrame: an ordered association list of named columns. -/
abbrev Table := List (String × List Cell)

/-- Column lookup by name (first match, as pandas column labels are unique). -/
def getCol : Table → String → Option (List Cell)
  | [], _ => none
  | (m, col) :: rest, n => if m = n then some col else getCol rest n

/-- Whether a column name is present (`name in df.columns`). -/
def hasCol (t : Table) (n : String) : Bool := (getCol t n).isSome

/-- Column assignment `df[n] = v`: replace in place if the column exists,
otherwise append it on the right. -/
def setCol : Table → String → List Cell → Table
  | [], n, v => [(n, v)]
  | (m, col) :: rest, n, v =>
    if m = n then (m, v) :: rest else (m, col) :: setCol rest n v

/-- Row count of a table (length of its first column). -/
def nrows : Table → ℕ
  | [] => 0
  | (_, col) :: _ => col.length

/-- The cell of column `n` at row index `i`. -/
def getCell (t : Table) (n : String) (i : ℕ) : Option Cell :=
  (getCol t n).bind (fun col => col[i]?)

/-- Predicate for scanning up to (not including) the quote character `q`. -/
def notQuote (q : Char) (d : Char) : Bool := !(d == q)

/-- Fuelled scanner implementing the regex `"([^"]+)"|'([^']+)'` used by
`extract_quoted_columns` (`utils/data_processing.py`, lines 120-138): at each
position try to match a double-quoted then a single-quoted non-empty literal;
on success continue after the match, on failure advance one character.  Fuel
bounded below by the list length suffices (each step consumes at least one
character). -/
def scanQuotedF : ℕ → List Char → List (List Char)
  | 0, _ => []
  | _, [] => []
  | fuel + 1, c :: rest =>
    if c = '"' then
      match rest.dropWhile (notQuote '"') with
      | [] => scanQuotedF fuel rest
      | _ :: after =>
        if rest.takeWhile (notQuote '"') = [] then scanQuotedF fuel rest
        else rest.takeWhile (notQuote '"') :: scanQuotedF fuel after
    else if c = '\'' then
      match rest.dropWhile (notQuote '\'') with
      | [] => scanQuotedF fuel rest
      | _ :: after =>
        if rest.takeWhile (notQuote '\'') = [] then scanQuotedF fuel rest
        else rest.takeWhile (notQuote '\'') :: scanQuotedF fuel after
    else scanQuotedF fuel rest

/-- The scanner applied with just enough fuel. -/
def scanQuoted (l : List Char) : List (List Char) := scanQuotedF l.length l

/-- `extract_quoted_columns` (`utils/data_processing.py`): the quoted column
references of a formula string, in left-to-right order, duplicates kept. -/
def extract_quoted_columns (formula : String) : List String :=
  (scanQuoted formula.data).map (fun cs => String.mk cs)

/-- The same entry point on an optional input: Python `None` (and the empty
string, which is falsy) yield the empty list. -/
def extractQuotedColumnsOpt : Option String → List String
  | none => []
  | some f => extract_quoted_columns f

example : extract_quoted_columns "(\"A\" + abs(\"B\")) / \"A\"" = ["A", "B", "A"] := by decide

example : extract_quoted_columns "\"\"x\"" = ["x"] := by decide

example : extract_quoted_columns "'ab\"cd\"ef" = ["cd"] := by decide

/-- Tokens of the arithmetic fragment of the formula language: numbers,
quoted column references, function identifiers, parentheses, the four
binary operators and the argument comma. -/
inductive Tok where
  | num (q : ℚ)
  | col (s : String)
  | ident (s : String)
  | lp
  | rp
  | plus
  | minus
  | star
  | slash
  | comma
deriving DecidableEq

/-- Identifier characters (Python identifiers restricted to ASCII usage in the
fixed function vocabulary). -/
def isIdentChar (c : Char) : Bool := c.isAlpha || c.isDigit || c == '_'

/-- Number-literal characters. -/
def isNumChar (c : Char) : Bool := c.isDigit || c == '.'

/-- Fuelled tokenizer for formula strings.  Quoted spans become column
reference tokens — this models `create_formula`'s textual substitution of
every quoted occurrence by a namespace lookup before `eval`.  A structurally
malformed string tokenizes to `none`, modelling a raised evaluation error. -/
def tokenizeF : ℕ → List Char → Option (List Tok)
  | 0, _ => none
  | _, [] => some []
  | fuel + 1, c :: rest =>
    if c = ' ' then tokenizeF fuel rest
    else if c = '"' then
      match rest.dropWhile (notQuote '"') with
      | [] => none
      | _ :: after =>
        let content := rest.takeWhile (notQuote '"')
        if content = [] then none
        else (tokenizeF fuel after).map (fun ts => Tok.col (String.mk content) :: ts)
    else if c = '\'' then
      match rest.dropWhile (notQuote '\'') with
      | [] => none
      | _ :: after =>
        let content := rest.takeWhile (notQuote '\'')
        if content = [] then none
        else (tokenizeF fuel after).map (fun ts => Tok.col (String.mk content) :: ts)
    else if c.isDigit then
      match parseDecimal ((c :: rest).takeWhile isNumChar) with
      | some q =>
        (tokenizeF fuel ((c :: rest).dropWhile isNumChar)).map (fun ts => Tok.num q :: ts)
      | none => none
    else if c.isAlpha || c = '_' then
      (tokenizeF fuel ((c :: rest).dropWhile isIdentChar)).map
        (fun ts => Tok.ident (String.mk ((c :: rest).takeWhile isIdentChar)) :: ts)
    else if c = '(' then (tokenizeF fuel rest).map (fun ts => Tok.lp :: ts)
    else if c = ')' then (tokenizeF fuel rest).map (fun ts => Tok.rp :: ts)
    else if c = '+' then (tokenizeF fuel rest).map (fun ts => Tok.plus :: ts)
    else if c = '-' then (tokenizeF fuel rest).map (fun ts => Tok.minus :: ts)
    else if c = '*' then (tokenizeF fuel rest).map (fun ts => Tok.star :: ts)
    else if c = '/' then (tokenizeF fuel rest).map (fun ts => Tok.slash :: ts)
    else if c = ',' then (tokenizeF fuel rest).map (fun ts => Tok.comma :: ts)
    else none

/-- Tokenizer with sufficient fuel (each step consumes at least one char). -/
def tokenize (l : List Char) : Option (List Tok) := tokenizeF l.length l

/-- Abstract syntax of the arithmetic fragment the repository formulas use:
column references, rational literals, `+ - * /`, unary minus, `abs`, and the
element-wise binary `min`/`max`.  Transcendental members of the vocabulary
(`sqrt`, `log`, `log10`, `exp`, `round`, `pow`) are outside the exact
rational model; formulas using them are not accepted by the parser and none
of the verified properties exercise them. -/
inductive Expr where
  | num (q : ℚ)
  | col (s : String)
  | add (a b : Expr)
  | sub (a b : Expr)
  | mul (a b : Expr)
  | div (a b : Expr)
  | neg (a : Expr)
  | abs (a : Expr)
  | minE (a b : Expr)
  | maxE (a b : Expr)
deriving DecidableEq

/-- Parsing modes of the single-function recursive-descent parse of Python's
expression grammar restricted to the fragment above (`sum` level for `+ -`,
`prod` level for `* /`, `factor` for unary minus and atoms). -/
inductive ParseMode where
  | sum
  | sumT (a : Expr)
  | prod
  | prodT (a : Expr)
  | factor
deriving DecidableEq

/-- Fuelled recursive-descent evaluation of the token stream following
Python's precedence for the supported operators. -/
def parseRun : ℕ → ParseMode → List Tok → Option (Expr × List Tok)
  | 0, _, _ => none
  | fuel + 1, .sum, ts => do
    let p ← parseRun fuel .prod ts
    parseRun fuel (.sumT p.1) p.2
  | fuel + 1, .sumT a, ts =>
    match ts with
    | .plus :: ts1 => do
      let p ← parseRun fuel .prod ts1
      parseRun fuel (.sumT (.add a p.1)) p.2
    | .minus :: ts1 => do
      let p ← parseRun fuel .prod ts1
      parseRun fuel (.sumT (.sub a p.1)) p.2
    | _ => some (a, ts)
  | fuel + 1, .prod, ts => do
    let p ← parseRun fuel .factor ts
    parseRun fuel (.prodT p.1) p.2
  | fuel + 1, .prodT a, ts =>
    match ts with
    | .star :: ts1 => do
      let p ← parseRun fuel .factor ts1
      parseRun fuel (.prodT (.mul a p.1)) p.2
    | .slash :: ts1 => do
      let p ← parseRun fuel .factor ts1
      parseRun fuel (.prodT (.div a p.1)) p.2
    | _ => some (a, ts)
  | fuel + 1, .factor, ts =>
    match ts with
    | .minus :: ts1 => (parseRun fuel .factor ts1).map (fun p => (.neg p.1, p.2))
    | .num q :: ts1 => some (.num q, ts1)
    | .col s :: ts1 => some (.col s, ts1)
    | .lp :: ts1 => do
      let p ← parseRun fuel .sum ts1
      match p.2 with
      | .rp :: ts3 => some (p.1, ts3)
      | _ => none
    | .ident f :: .lp :: ts1 =>
      if f = "abs" then do
        let p ← parseRun fuel .sum ts1
        match p.2 with
        | .rp :: ts3 => some (.abs p.1, ts3)
        | _ => none
      else if f = "min" ∨ f = "max" then do
        let p ← parseRun fuel .sum ts1
        match p.2 with
        | .comma :: ts3 => do
          let q ← parseRun fuel .sum ts3
          match q.2 with
          | .rp :: ts5 =>
            some (if f = "min" then .minE p.1 q.1 else .maxE p.1 q.1, ts5)
          | _ => none
        | _ => none
      else none
    | _ => none

/-- Parse a whole token stream, requiring full consumption. -/
def parseTokens (ts : List Tok) : Option Expr :=
  match parseRun (10 * (ts.length + 1)) .sum ts with
  | some (e, []) => some e
  | _ => none

/-- A numpy evaluation value: a scalar or a 1-d vector. -/
inductive NpVal where
  | scal (q : ℚ)
  | vec (v : List ℚ)
deriving DecidableEq

/-- Numpy broadcasting for a binary element-wise operation; mismatched vector
lengths are a numpy error. -/
def broadcast2 (f : ℚ → ℚ → ℚ) : NpVal → NpVal → Option NpVal
  | .scal a, .scal b => some (.scal (f a b))
  | .scal a, .vec w => some (.vec (w.map (fun b => f a b)))
  | .vec v, .scal b => some (.vec (v.map (fun a => f a b)))
  | .vec v, .vec w =>
    if v.length = w.length then some (.vec (List.zipWith f v w)) else none

/-- Element-wise unary operation. -/
def map1 (f : ℚ → ℚ) : NpVal → NpVal
  | .scal a => .scal (f a)
  | .vec v => .vec (v.map f)

/-- Evaluation of an expression against the namespace binding of column
vectors built by `create_formula`. -/
def evalExpr (env : List (String × List ℚ)) : Expr → Option NpVal
  | .num q => some (.scal q)
  | .col s => (List.lookup s env).map .vec
  | .add a b => do broadcast2 (· + ·) (← evalExpr env a) (← evalExpr env b)
  | .sub a b => do broadcast2 (· - ·) (← evalExpr env a) (← evalExpr env b)
  | .mul a b => do broadcast2 (· * ·) (← evalExpr env a) (← evalExpr env b)
  | .div a b => do broadcast2 (· / ·) (← evalExpr env a) (← evalExpr env b)
  | .neg a => (evalExpr env a).map (map1 (fun x => -x))
  | .abs a => (evalExpr env a).map (map1 (fun x => |x|))
  | .minE a b => do broadcast2 min (← evalExpr env a) (← evalExpr env b)
  | .maxE a b => do broadcast2 max (← evalExpr env a) (← evalExpr env b)

/-- `create_formula` (`formula_engine.py`, lines 59-95): extract the quoted
column references; for each, fail if absent from the data, else bind the
column coerced to numeric with missing values replaced by the `1.0` sentinel
(`bindNumeric`); then evaluate the arithmetic expression with the quoted
spans denoting the bound vectors.  `none` models a raised error. -/
def create_formula (formula_expr : String) (data : Table) : Option NpVal :=
  match (extract_quoted_columns formula_expr).mapM
      (fun c => (getCol data c).map (fun col => (c, col.map bindNumeric))) with
  | none => none
  | some env =>
    (tokenize formula_expr.data).bind (fun ts => (parseTokens ts).bind (evalExpr env))

/-- Model of `data.head(1)`. -/
def headTable (t : Table) : Table := t.map (fun p => (p.1, p.2.take 1))

/-- `validate_formulas` (`formula_engine.py`, lines 13-41): per formula,
record an error if a referenced column is missing from the data, else smoke
test it on a one-row slice; only formulas passing both go into the valid
set.  Validation is independent per formula. -/
def validate_formulas (formulas : List (String × String)) (data : Table) :
    List (String × String) × List String :=
  formulas.foldl
    (fun acc nf =>
      let columns := extract_quoted_columns nf.2
      let missingCols := columns.filter (fun c => !(hasCol data c))
      if missingCols ≠ [] then
        (acc.1, acc.2 ++ ["Formula " ++ nf.1 ++ " references missing columns"])
      else
        match create_formula nf.2 (headTable data) with
        | some _ => (acc.1 ++ [nf], acc.2)
        | none => (acc.1, acc.2 ++ ["Formula " ++ nf.1 ++ " failed validation test"]))
    ([], [])

/-- Materialize an evaluation result as a column of `n` cells (a scalar
result broadcasts, as pandas column assignment does). -/
def npValToColumn (v : NpVal) (n : ℕ) : List Cell :=
  match v with
  | .scal q => List.replicate n (Cell.num q)
  | .vec qs => qs.map Cell.num

/-- `apply_formulas` (`formula_engine.py`, lines 44-56): evaluate each
formula against the accumulated result; on a raised evaluation error the
output column is filled with NaN (`Cell.missing`) instead. -/
def apply_formulas (data : Table) (formulas : List (String × String)) : Table :=
  formulas.foldl
    (fun result nf =>
      match create_formula nf.2 result with
      | some v => setCol result nf.1 (npValToColumn v (nrows result))
      | none => setCol result nf.1 (List.replicate (nrows result) Cell.missing))
    data

/-- The orchestrator's custom-formula path
(`workflow/orchestrator.py`, lines 121-130): validate the custom formulas,
then apply only the valid ones. -/
def customFormulaPath (data : Table) (formulas : List (String × String)) : Table :=
  apply_formulas data (validate_formulas formulas data).1

example : create_formula "\"X\" * 2"
    [("X", [Cell.str "10", Cell.str "bad", Cell.missing])] =
    some (NpVal.vec [20, 2, 2]) := by with_unfolding_all decide

/-- Whether `needle` is an initial segment of `hay`. -/
def startsWithChars : List Char → List Char → Bool
  | [], _ => true
  | _ :: _, [] => false
  | a :: as, b :: bs => a == b && startsWithChars as bs

/-- Python's substring containment `needle in hay`. -/
def containsChars (needle : List Char) : List Char → Bool
  | [] => startsWithChars needle []
  | c :: rest => startsWithChars needle (c :: rest) || containsChars needle rest

/-- Whether `suffix` ends `hay`. -/
def endsWithChars (suffix hay : List Char) : Bool :=
  startsWithChars suffix.reverse hay.reverse

/-- ASCII lowercasing for the case-insensitive containment check. -/
def lowerChars (l : List Char) : List Char := l.map Char.toLower

/-- The year-suffixed revenue column name `Müügitulu_{year}`. -/
def revColName (year : ℤ) : String := "Müügitulu_" ++ toString year

/-- The year-suffixed EBITDA-margin column name `ebitda_margin_{year}`. -/
def ebitdaColName (year : ℤ) : String := "ebitda_margin_" ++ toString year

/-- Pandas element-wise `== 1` on a column cell (`result[revenue_col] == 1`):
true exactly for the numeric value one (booleans compare as 0/1; strings and
NaN compare unequal). -/
def cellEqOne : Cell → Bool
  | .num q => q == 1
  | .boolv b => b
  | _ => false

/-- Pandas element-wise `> 1.0` on a column cell: true exactly for numeric
values above one (NaN comparisons are false; the compared columns hold
formula outputs, i.e. numeric or NaN cells). -/
def cellGtOne : Cell → Bool
  | .num q => 1 < q
  | _ => false

/-- Element-wise OR of two boolean masks (`mask |= ...`). -/
def orMasks (a b : List Bool) : List Bool := List.zipWith (fun x y => x || y) a b

/-- OR a column test into a mask, when the column exists. -/
def colMask (t : Table) (n : String) (test : Cell → Bool) (base : List Bool) : List Bool :=
  match getCol t n with
  | some col => orMasks base (col.map test)
  | none => base

/-- The per-year flagging mask of `flag_investment_vehicles`
(`formula_engine.py`, lines 106-112): start all-false, OR in
`revenue == 1` then `ebitda_margin > 1.0`, each only if its column exists. -/
def ivMask (r : Table) (year : ℤ) : List Bool :=
  colMask r (ebitdaColName year) cellGtOne
    (colMask r (revColName year) cellEqOne (List.replicate (nrows r) false))

/-- `df.loc[mask, n] = v`: overwrite the cells of column `n` selected by the
mask (no-op if the column is absent — callers guard with `hasCol`). -/
def maskSet (t : Table) (n : String) (mask : List Bool) (v : Cell) : Table :=
  match getCol t n with
  | none => t
  | some col => setCol t n (List.zipWith (fun b c => if b then v else c) mask col)

/-- One year iteration of `flag_investment_vehicles`
(`formula_engine.py`, lines 102-123): compute the mask, set the flag for
masked records, then null every formula output column whose expression
textually contains `Müügitulu_{year}` at the masked records. -/
def ivStep (formulas : List (String × String)) (r : Table) (year : ℤ) : Table :=
  let m := ivMask r year
  let r1 := maskSet r "investment_vehicle" m (Cell.boolv true)
  let deps := formulas.filter (fun nf => containsChars (revColName year).data nf.2.data)
  deps.foldl (fun acc nf => if hasCol acc nf.1 then maskSet acc nf.1 m Cell.missing else acc) r1

/-- `flag_investment_vehicles` (`formula_engine.py`, lines 97-125):
initialize the boolean `investment_vehicle` column to all-false, then fold
the per-year step over the requested years. -/
def flag_investment_vehicles (data : Table) (years : List ℤ)
    (formulas : List (String × String)) : Table :=
  let r0 := setCol data "investment_vehicle" (List.replicate (nrows data) (Cell.boolv false))
  years.foldl (ivStep formulas) r0

/-- `ebitda_margin` (`standard_formulas.py`, lines 44-45). -/
def ebitda_margin (year : ℤ) : String :=
  "(\"Ärikasum (kahjum)_" ++ toString year ++ "\" + abs(\"Põhivarade kulum ja väärtuse langus_" ++
    toString year ++ "\")) / \"Müügitulu_" ++ toString year ++ "\""

/-- `revenue_growth` (`standard_formulas.py`, lines 48-49). -/
def revenue_growth (fromYear toYear : ℤ) : String :=
  "((\"Müügitulu_" ++ toString toYear ++ "\" / \"Müügitulu_" ++ toString fromYear ++ "\") - 1)"

/-- `revenue_cagr` (`standard_formulas.py`, lines 52-54). -/
def revenue_cagr (startYear endYear : ℤ) : String :=
  "(pow((\"Müügitulu_" ++ toString endYear ++ "\" / \"Müügitulu_" ++ toString startYear ++
    "\"), 1/" ++ toString (endYear - startYear) ++ ") - 1)"

/-- `asset_turnover` (`standard_formulas.py`, lines 57-62). -/
def asset_turnover (year : ℤ) (binary : ℕ := 0) : String :=
  if binary = 1 then
    "\"Müügitulu_" ++ toString year ++ "\" / \"Varad_" ++ toString year ++ "\""
  else
    "\"Müügitulu_" ++ toString year ++ "\" / ((\"Varad_" ++ toString year ++ "\" + \"Varad_" ++
      toString (year - 1) ++ "\") / 2)"

/-- `roe` (`standard_formulas.py`, lines 65-70). -/
def roe (year : ℤ) (binary : ℕ := 0) : String :=
  if binary = 1 then
    "\"Aruandeaasta kasum (kahjum)_" ++ toString year ++ "\" / \"Omakapital_" ++ toString year ++ "\""
  else
    "\"Aruandeaasta kasum (kahjum)_" ++ toString year ++ "\" / ((\"Omakapital_" ++ toString year ++
      "\" + \"Omakapital_" ++ toString (year - 1) ++ "\") / 2)"

/-- `roa` (`standard_formulas.py`, lines 73-78). -/
def roa (year : ℤ) (binary : ℕ := 0) : String :=
  if binary = 1 then
    "\"Aruandeaasta kasum (kahjum)_" ++ toString year ++ "\" / \"Varad_" ++ toString year ++ "\""
  else
    "\"Aruandeaasta kasum (kahjum)_" ++ toString year ++ "\" / ((\"Varad_" ++ toString year ++
      "\" + \"Varad_" ++ toString (year - 1) ++ "\") / 2)"

/-- `employee_efficiency` (`standard_formulas.py`, lines 81-86). -/
def employee_efficiency (year : ℤ) (binary : ℕ := 0) : String :=
  if binary = 1 then
    "\"Müügitulu_" ++ toString year ++ "\" / \"Töötajate keskmine arv taandatud täistööajale_" ++
      toString year ++ "\""
  else
    "\"Müügitulu_" ++ toString year ++ "\" / ((\"Töötajate keskmine arv taandatud täistööajale_" ++
      toString year ++ "\" + \"Töötajate keskmine arv taandatud täistööajale_" ++
      toString (year - 1) ++ "\") / 2)"

/-- `cash_ratio` (`standard_formulas.py`, lines 89-90). -/
def cash_ratio (year : ℤ) : String :=
  "\"Raha_" ++ toString year ++ "\" / \"Lühiajalised kohustised_" ++ toString year ++ "\""

/-- `current_ratio` (`standard_formulas.py`, lines 93-94). -/
def current_ratio (year : ℤ) : String :=
  "\"Käibevarad_" ++ toString year ++ "\" / \"Lühiajalised kohustised_" ++ toString year ++ "\""

/-- `debt_to_equity` (`standard_formulas.py`, lines 97-98). -/
def debt_to_equity (year : ℤ) : String :=
  "(\"Lühiajalised kohustised_" ++ toString year ++ "\" + \"Pikaajalised kohustised_" ++
    toString year ++ "\") / \"Omakapital_" ++ toString year ++ "\""

/-- `labour_ratio` (`standard_formulas.py`, lines 101-102). -/
def labour_ratio (year : ℤ) : String :=
  "-(\"Tööjõukulud_" ++ toString year ++ "\") / \"Müügitulu_" ++ toString year ++ "\""

/-- Descending order on years, as `sorted(years, reverse=True)` uses. -/
@[reducible] def geZ (a b : ℤ) : Prop := b ≤ a

instance : IsTotal ℤ geZ := ⟨fun a b => (le_total b a).imp id id⟩

instance : IsTrans ℤ geZ := ⟨fun _ _ _ hab hbc => le_trans hbc hab⟩

instance : IsAntisymm ℤ geZ := ⟨fun _ _ h1 h2 => le_antisymm h2 h1⟩

/-- `sorted(years, reverse=True)`: stable descending sort. -/
def sortYearsDesc (years : List ℤ) : List ℤ := List.insertionSort geZ years

/-- Python dict insertion `d[k] = v` on an insertion-ordered dictionary:
update in place if the key exists, else append. -/
def dictInsert : List (String × String) → String → String → List (String × String)
  | [], k, v => [(k, v)]
  | (k1, v1) :: rest, k, v =>
    if k1 = k then (k1, v) :: rest else (k1, v1) :: dictInsert rest k v

/-- `get_standard_formulas` (`standard_formulas.py`, lines 4-41): sort the
years descending; per year add the thirteen catalog formulas; with at least
two years add one revenue-growth formula per consecutive pair of the sorted
years; with at least three years add one CAGR formula from the oldest to the
newest year. -/
def get_standard_formulas (years : List ℤ) : List (String × String) :=
  let ys := sortYearsDesc years
  let base := ys.foldl (fun d year =>
    let d := dictInsert d ("ebitda_margin_" ++ toString year) (ebitda_margin year)
    let d := dictInsert d ("roe_" ++ toString year) (roe year)
    let d := dictInsert d ("roe_single_" ++ toString year) (roe year 1)
    let d := dictInsert d ("roa_" ++ toString year) (roa year)
    let d := dictInsert d ("roa_single_" ++ toString year) (roa year 1)
    let d := dictInsert d ("asset_turnover_" ++ toString year) (asset_turnover year)
    let d := dictInsert d ("asset_turnover_single_" ++ toString year) (asset_turnover year 1)
    let d := dictInsert d ("employee_efficiency_" ++ toString year) (employee_efficiency year)
    let d := dictInsert d ("employee_efficiency_single_" ++ toString year) (employee_efficiency year 1)
    let d := dictInsert d ("cash_ratio_" ++ toString year) (cash_ratio year)
    let d := dictInsert d ("current_ratio_" ++ toString year) (current_ratio year)
    let d := dictInsert d ("debt_to_equity_" ++ toString year) (debt_to_equity year)
    dictInsert d ("labour_ratio_" ++ toString year) (labour_ratio year)) []
  let withGrowth :=
    if 2 ≤ ys.length then
      (List.range (ys.length - 1)).foldl (fun d i =>
        match ys[i]?, ys[i + 1]? with
        | some toYear, some fromYear =>
          dictInsert d ("revenue_growth_" ++ toString fromYear ++ "_to_" ++ toString toYear)
            (revenue_growth fromYear toYear)
        | _, _ => d) base
    else base
  if 3 ≤ ys.length then
    match ys.getLast?, ys.head? with
    | some startYear, some endYear =>
      dictInsert withGrowth ("revenue_cagr_" ++ toString startYear ++ "_to_" ++ toString endYear)
        (revenue_cagr startYear endYear)
    | _, _ => withGrowth
  else withGrowth

/-- A row of the long-format per-year financial extract
(`financials_{year}.csv` restricted to the used columns): report identifier,
source table name, line-item label and value.  The two string fields may be
NaN in the extract, hence `Option`. -/
structure FinRecord where
  report_id : ℤ
  tabel : Option String
  elemendi_label : Option String
  vaartus : Cell
deriving DecidableEq

/-- Strip one trailing `" Konsolideeritud"` marker, modelling the regex
replacement `str.replace(' Konsolideeritud$', '', regex=True)`
(`data_loaders.py`, line 24). -/
def cleanLabelStr (l : String) : String :=
  if endsWithChars " Konsolideeritud".data l.data then
    String.mk (l.data.take (l.data.length - " Konsolideeritud".data.length))
  else l

/-- The cleaned label of a record (`clean_elemendi_label`); NaN stays NaN. -/
def cleanLabelOf (r : FinRecord) : Option String := r.elemendi_label.map cleanLabelStr

/-- Whether a record is marked consolidated (`data_loaders.py`, lines 28-31):
case-insensitive containment of `Konsolideeritud` in the source-table field,
or the trailing `" Konsolideeritud"` marker on the label; NaN fields count as
false (`na=False`). -/
def isConsRecord (r : FinRecord) : Bool :=
  (match r.tabel with
   | some t => containsChars (lowerChars "Konsolideeritud".data) (lowerChars t.data)
   | none => false) ||
  (match r.elemendi_label with
   | some l => endsWithChars " Konsolideeritud".data l.data
   | none => false)

/-- The label filter (`data_loaders.py`, line 25): keep records whose cleaned
label is one of the requested financial items (NaN labels drop out). -/
def filterByItems (records : List FinRecord) (items : List String) : List FinRecord :=
  records.filter (fun r =>
    match cleanLabelOf r with
    | some l => items.contains l
    | none => false)

/-- Whether any record of the report is marked consolidated
(`groupby('report_id')['is_consolidated'].any()`). -/
def hasConsolidated (records : List FinRecord) (rid : ℤ) : Bool :=
  records.any (fun r => r.report_id == rid && isConsRecord r)

/-- The consolidated/standalone resolution filter (`data_loaders.py`,
lines 36-39): keep a record iff its report has no consolidated record, or
the record itself is consolidated. -/
def consolidatedFilter (records : List FinRecord) : List FinRecord :=
  records.filter (fun r => !hasConsolidated records r.report_id || isConsRecord r)

/-- The pivoted value for one (report identifier, canonical label) pair:
`aggfunc='first'` takes the first non-null value of the group in row order,
NaN when the group is empty or all-null. -/
def pivotValue (records : List FinRecord) (rid : ℤ) (label : String) : Option Cell :=
  ((records.filter (fun r => r.report_id == rid && cleanLabelOf r == some label)).map
    (fun r => r.vaartus)).find? (fun c => !(c == Cell.missing))

/-- `load_financial_data` (`data_loaders.py`, lines 11-60) after the file
read: filter to the requested items, resolve consolidated vs standalone,
pivot to wide format keyed by report identifier with one column per cleaned
label suffixed `_{year}`, and attach the `is_consolidated_{year}` flag.
`pivot_table` sorts the index and column labels; ordering is not
load-bearing for any verified property, so first-appearance order is kept
here. -/
def load_financial_data (year : ℤ) (records : List FinRecord) (items : List String) : Table :=
  let kept := consolidatedFilter (filterByItems records items)
  let rids := (kept.map (fun r => r.report_id)).dedup
  let labels := (kept.filterMap cleanLabelOf).dedup
  ("report_id", rids.map (fun (rid : ℤ) => Cell.num (rid : ℚ))) ::
    labels.map (fun l => (l ++ "_" ++ toString year,
      rids.map (fun rid => (pivotValue kept rid l).getD Cell.missing))) ++
    [("is_consolidated_" ++ toString year,
      rids.map (fun rid => Cell.boolv (hasConsolidated kept rid)))]

/-- Left join of the wide per-year table onto the base table by the
year-specific report-identifier column, dropping the redundant `report_id`
key (`data_mergers.py`, lines 27-37).  The pivoted table has unique report
identifiers, so each base row gains at most one match. -/
def leftJoin (base : Table) (keyCol : String) (wide : Table) : Table :=
  match getCol base keyCol, getCol wide "report_id" with
  | some keys, some rids =>
    base ++ (wide.filter (fun p => p.1 ≠ "report_id")).map (fun p =>
      (p.1, keys.map (fun k =>
        match rids.findIdx? (fun c => c == k) with
        | some j => (p.2[j]?).getD Cell.missing
        | none => Cell.missing)))
  | _, _ => base

/-- `merge_financial_data` (`data_mergers.py`, lines 11-56): per year, skip
if the year's report-identifier column or the year's extract is missing,
else load and left-join the wide table; finally coerce every
financial-item×year column to numeric, filling unconvertible and missing
values with the `1.0` sentinel (`convert_to_numeric(..., fill_value=1)`).
`finData` stands for the storage adapter read of `financials_{year}.csv`. -/
def merge_financial_data (result : Table) (years : List ℤ) (financial_items : List String)
    (finData : ℤ → Option (List FinRecord)) : Table :=
  let merged := years.foldl (fun acc year =>
    if hasCol acc ("report_id_" ++ toString year) then
      match finData year with
      | none => acc
      | some records =>
        leftJoin acc ("report_id_" ++ toString year) (load_financial_data year records financial_items)
    else acc) result
  let allCols := financial_items.foldl (fun cs item =>
    cs ++ years.foldl (fun cs2 year =>
      if hasCol merged (item ++ "_" ++ toString year) then
        cs2 ++ [item ++ "_" ++ toString year]
      else cs2) []) []
  allCols.foldl (fun acc c =>
    match getCol acc c with
    | some col => setCol acc c (col.map (fun cell => Cell.num (bindNumeric cell)))
    | none => acc) merged

/-- In-memory core of `calculate_ratios`
(`criteria_setup/calculations.py`, lines 71-260) after the file reads:
per year, the inline load/disambiguate/pivot/left-join block (lines 126-218,
line for line the algorithm of `load_financial_data` plus the left join of
`merge_financial_data`, skipping a year whose report-identifier column or
extract is absent), then the numeric coercion of every
financial-item×year column with NaN filled by `1` (lines 220-238), then the
formula loop evaluating each formula against the accumulated result with a
raised error turning the output column into NaN (lines 246-253, the shape
of `apply_formulas`), and finally save and return (line 257-260).  The
function never calls `flag_investment_vehicles` and adds no
`investment_vehicle` column.  Defaulting of `years`/`formulas` and the
inference of `financial_items` from formula references (lines 78-110)
resolve before this core runs; the resolved values are parameters here, and
`finData` stands for the storage adapter read of `financials_{year}.csv`. -/
def calculate_ratios (input_table : Table) (years : List ℤ)
    (formulas : List (String × String)) (financial_items : List String)
    (finData : ℤ → Option (List FinRecord)) : Table :=
  let merged := merge_financial_data input_table years financial_items finData
  apply_formulas merged formulas

/-- A scoring threshold rule (`scoring_config.py`): an optional `min` bound,
an optional `max` bound and the awarded points. -/
structure ThresholdCfg where
  minB : Option ℚ := none
  maxB : Option ℚ := none
  points : ℚ
deriving DecidableEq

/-- Ascending order on the Python sort key `(-points, -min)` used for
min-type thresholds (`scoring.py`, line 91). -/
def thrLeMin (t u : ThresholdCfg) : Prop :=
  u.points < t.points ∨ (t.points = u.points ∧ u.minB.getD 0 ≤ t.minB.getD 0)

instance : DecidableRel thrLeMin := fun t u => by
  unfold thrLeMin
  infer_instance

instance : IsTotal ThresholdCfg thrLeMin := by
  constructor
  intro a b
  rcases lt_trichotomy a.points b.points with h | h | h
  · exact Or.inr (Or.inl h)
  · rcases le_total (b.minB.getD 0) (a.minB.getD 0) with h2 | h2
    · exact Or.inl (Or.inr ⟨h, h2⟩)
    · exact Or.inr (Or.inr ⟨h.symm, h2⟩)
  · exact Or.inl (Or.inl h)

instance : IsTrans ThresholdCfg thrLeMin := by
  constructor
  intro a b c hab hbc
  rcases hab with h1 | ⟨h1, h1m⟩
  · rcases hbc with h2 | ⟨h2, _⟩
    · exact Or.inl (h2.trans h1)
    · exact Or.inl (h2 ▸ h1)
  · rcases hbc with h2 | ⟨h2, h2m⟩
    · exact Or.inl (h1 ▸ h2)
    · exact Or.inr ⟨h1.trans h2, h2m.trans h1m⟩

/-- Ascending order on the Python sort key `(-points, max)` used for
max-type thresholds (`scoring.py`, line 92). -/
def thrLeMax (t u : ThresholdCfg) : Prop :=
  u.points < t.points ∨ (t.points = u.points ∧ t.maxB.getD 0 ≤ u.maxB.getD 0)

instance : DecidableRel thrLeMax := fun t u => by
  unfold thrLeMax
  infer_instance

instance : IsTotal ThresholdCfg thrLeMax := by
  constructor
  intro a b
  rcases lt_trichotomy a.points b.points with h | h | h
  · exact Or.inr (Or.inl h)
  · rcases le_total (a.maxB.getD 0) (b.maxB.getD 0) with h2 | h2
    · exact Or.inl (Or.inr ⟨h, h2⟩)
    · exact Or.inr (Or.inr ⟨h.symm, h2⟩)
  · exact Or.inl (Or.inl h)

instance : IsTrans ThresholdCfg thrLeMax := by
  constructor
  intro a b c hab hbc
  rcases hab with h1 | ⟨h1, h1m⟩
  · rcases hbc with h2 | ⟨h2, _⟩
    · exact Or.inl (h2.trans h1)
    · exact Or.inl (h2 ▸ h1)
  · rcases hbc with h2 | ⟨h2, h2m⟩
    · exact Or.inl (h1 ▸ h2)
    · exact Or.inr ⟨h1.trans h2, h1m.trans h2m⟩

/-- `_sort_thresholds` (`scoring.py`, lines 87-100): partition into min-type
and max-type thresholds, stably sort the former by (points desc, min desc)
and the latter by (points desc, max asc), and return min-sorted ++ max-sorted
when both kinds occur, else whichever is non-empty.  `List.insertionSort`
with a total preorder is stable, matching Python's stable `list.sort`. -/
def sort_thresholds (thresholds : List ThresholdCfg) : List ThresholdCfg :=
  let mins := thresholds.filter (fun t => t.minB.isSome)
  let maxs := thresholds.filter (fun t => t.maxB.isSome)
  let minsS := List.insertionSort thrLeMin mins
  let maxsS := List.insertionSort thrLeMax maxs
  if mins.isEmpty then maxsS
  else if maxs.isEmpty then minsS
  else minsS ++ maxsS

/-- One threshold application step of `_calculate_metric_scores`
(`scoring.py`, lines 120-135) for a single record with numeric value `v`:
a record is (re)scored only while its score is still `0`
(`condition & (scores == 0)`); the `min` key is tested first. -/
def thrStep (v : ℚ) (s : ℚ) (t : ThresholdCfg) : ℚ :=
  match t.minB with
  | some m => if s = 0 ∧ m ≤ v then t.points else s
  | none =>
    match t.maxB with
    | some mx => if s = 0 ∧ v ≤ mx then t.points else s
    | none => s

/-- The score a numeric record value receives from an (ordered) threshold
list (`scoring.py`, lines 120-135), starting from `0`. -/
def foldScore (thresholds : List ThresholdCfg) (v : ℚ) : ℚ :=
  thresholds.foldl (thrStep v) 0

/-- `_calculate_metric_scores` restricted to one record (the computation is
independent per record): a record whose cell is not numeric is excluded from
the valid mask and keeps score `0`. -/
def scoreCell (thresholds : List ThresholdCfg) (c : Cell) : ℚ :=
  match toNumericCell c with
  | some v => foldScore thresholds v
  | none => 0

/-- The specification-side reading of min-threshold matching: the bound of a
min-type threshold is met when `min ≤ v`. -/
def specMeetsMin (v : ℚ) (t : ThresholdCfg) : Bool :=
  match t.minB with
  | some m => decide (m ≤ v)
  | none => false

/-- The per-formula-type parameters of the `standard_formulas` configuration
(`config_validator.py`): optional `year_pairs` (growth), optional
`start_year`/`end_year` (CAGR), optional `years` and `use_averages`
(year-indexed ratio families; `use_averages` defaults to `True`).  Absent
dictionary keys are `none`; `year_pairs` entries are raw lists so the
length-two shape check is meaningful. -/
structure StdCfg where
  yearPairs : Option (List (List ℤ)) := none
  startYear : Option ℤ := none
  endYear : Option ℤ := none
  years : Option (List ℤ) := none
  useAverages : Option Bool := none
deriving DecidableEq

/-- A `financial_filters` entry; the validator only checks that the `column`
key is present. -/
structure FinFilter where
  column : Option String := none
  minB : Option ℚ := none
  maxB : Option ℚ := none
deriving DecidableEq

/-- A `scoring_config` metric entry. -/
structure MetricCfg where
  thresholds : Option (List ThresholdCfg) := none
  autoSort : Option Bool := none
deriving DecidableEq

/-- The pipeline configuration surface consumed by `validate_config`
(`config_validator.py`).  Keys absent from the Python dict are `none`; the
two formula maps default to empty as in `config.get(..., {})`.  Checks that
are pure `isinstance` tests hold by typing in this model. -/
structure Config where
  years : Option (List ℤ) := none
  legal_forms : Option (List String) := none
  skip_steps : Option (List String) := none
  use_dataframe_pipeline : Option Bool := none
  standard_formulas : List (String × StdCfg) := []
  custom_formulas : List (String × String) := []
  scoring_config : Option (List (String × MetricCfg)) := none
  financial_filters : Option (List FinFilter) := none
  ownership_filters : Option Unit := none

/-- `_validate_years` (`config_validator.py`, lines 19-25). -/
def validateYears (years : Option (List ℤ)) : Except String Unit :=
  match years with
  | none => .error "Years must be specified"
  | some ys =>
    if ys.isEmpty then .error "Years must be a non-empty list"
    else if ys.all (fun y => 2000 ≤ y ∧ y ≤ 2030) then .ok ()
    else .error "Years must be integers between 2000 and 2030"

/-- `_validate_legal_forms` (`config_validator.py`, lines 28-34). -/
def validateLegalForms (legalForms : Option (List String)) : Except String Unit :=
  match legalForms with
  | none => .ok ()
  | some fs =>
    if fs.all (fun f => f = "AS" ∨ f = "OÜ") then .ok ()
    else .error "Legal forms must be from the valid set"

/-- `_validate_skip_steps` (`config_validator.py`, lines 37-44). -/
def validateSkipSteps (skipSteps : Option (List String)) : Except String Unit :=
  match skipSteps with
  | none => .ok ()
  | some ss =>
    if ss.all (fun s => s = "industry" ∨ s = "age" ∨ s = "emtak" ∨ s = "ownership") then .ok ()
    else .error "Invalid skip steps"

/-- `_validate_pipeline_mode` (`config_validator.py`, lines 47-50); the
boolean type check holds by typing here. -/
def validatePipelineMode (_mode : Option Bool) : Except String Unit := .ok ()

/-- The closed enum of standard formula types (`config_validator.py`,
lines 74-78). -/
def validFormulaTypes : List String :=
  ["ebitda_margin", "roe", "roa", "asset_turnover", "employee_efficiency",
   "cash_ratio", "current_ratio", "debt_to_equity", "labour_ratio",
   "revenue_growth", "revenue_cagr"]

/-- The denominator-averaging families that take the `_single` suffix when
`use_averages` is false (`config_validator.py`, line 129). -/
def suffixFamilies : List String :=
  ["roe", "roa", "asset_turnover", "employee_efficiency"]

/-- `_validate_standard_formulas` (`config_validator.py`, lines 73-103):
each configured type must be in the enum and carry its required sub-keys
(`year_pairs` of two-element lists for growth, `start_year` and `end_year`
for CAGR, `years` otherwise). -/
def validateStandardFormulas (std : List (String × StdCfg)) : Except String Unit :=
  std.foldlM (fun _ fc =>
    if ¬validFormulaTypes.contains fc.1 then
      .error ("Invalid standard formula type: " ++ fc.1)
    else if fc.1 = "revenue_growth" then
      match fc.2.yearPairs with
      | none => .error "revenue_growth must have year_pairs specified"
      | some pairs =>
        if pairs.all (fun p => p.length = 2) then .ok ()
        else .error "revenue_growth year_pairs must contain lists of 2 years each"
    else if fc.1 = "revenue_cagr" then
      if fc.2.startYear.isSome ∧ fc.2.endYear.isSome then .ok ()
      else .error "revenue_cagr must have start_year and end_year"
    else
      match fc.2.years with
      | none => .error (fc.1 ++ " must have years specified")
      | some _ => .ok ()) ()

/-- `_validate_custom_formulas` (`config_validator.py`, lines 106-111):
names and expressions must be non-empty strings. -/
def validateCustomFormulas (custom : List (String × String)) : Except String Unit :=
  custom.foldlM (fun _ nf =>
    if nf.1 = "" then .error "Custom formula names must be non-empty strings"
    else if nf.2 = "" then .error "Custom formula expressions must be non-empty strings"
    else .ok ()) ()

/-- `_get_generated_formula_names` (`config_validator.py`, lines 114-135):
re-derive the names the standard configuration would generate, inserting the
`_single` suffix exactly when `use_averages` is false and only for the
averaging families; growth names come from the year pairs and the CAGR name
requires both bounds truthy (`if start_year and end_year` — `None` and `0`
are falsy).  Membership in the result models Python set membership. -/
def getGeneratedFormulaNames (std : List (String × StdCfg)) : List String :=
  std.foldl (fun names fc =>
    if fc.1 = "revenue_growth" then
      names ++ (fc.2.yearPairs.getD []).foldl (fun ns p =>
        match p with
        | [fromYear, toYear] =>
          ns ++ ["revenue_growth_" ++ toString fromYear ++ "_to_" ++ toString toYear]
        | _ => ns) []
    else if fc.1 = "revenue_cagr" then
      if fc.2.startYear.getD 0 ≠ 0 ∧ fc.2.endYear.getD 0 ≠ 0 then
        names ++ ["revenue_cagr_" ++ toString (fc.2.startYear.getD 0) ++ "_to_" ++
          toString (fc.2.endYear.getD 0)]
      else names
    else
      names ++ (fc.2.years.getD []).map (fun y =>
        if suffixFamilies.contains fc.1 then
          fc.1 ++ (if fc.2.useAverages.getD true then "" else "_single") ++ "_" ++ toString y
        else
          fc.1 ++ "_" ++ toString y)) []

/-- `_validate_formulas` (`config_validator.py`, lines 53-70): shape-check
the standard and custom formula maps, then raise on any overlap between the
names the standard configuration would generate and the custom names. -/
def validateFormulasCfg (c : Config) : Except String Unit := do
  validateStandardFormulas c.standard_formulas
  validateCustomFormulas c.custom_formulas
  let overlapping := (c.custom_formulas.map Prod.fst).filter
    (fun n => (getGeneratedFormulaNames c.standard_formulas).contains n)
  if overlapping.isEmpty then .ok ()
  else .error "Overlapping formula names between standard and custom"

/-- `validate_scoring_config` (`scoring_config.py`, lines 84-125) in the
typed model: per metric, the `thresholds` key must be present and non-empty;
each threshold must have exactly one of `min`/`max` and non-negative points
(the points-presence and is-a-number checks hold by typing). -/
def validateScoringConfigErrors (sc : List (String × MetricCfg)) : List String :=
  sc.foldl (fun errs mc =>
    match mc.2.thresholds with
    | none => errs ++ ["Metric " ++ mc.1 ++ " missing thresholds key"]
    | some ts =>
      if ts.isEmpty then errs ++ ["Metric " ++ mc.1 ++ " thresholds must be a non-empty list"]
      else ts.foldl (fun es t =>
        let es :=
          if ¬t.minB.isSome ∧ ¬t.maxB.isSome then
            es ++ ["Metric " ++ mc.1 ++ " threshold must have either min or max key"]
          else if t.minB.isSome ∧ t.maxB.isSome then
            es ++ ["Metric " ++ mc.1 ++ " threshold cannot have both min and max keys"]
          else es
        if t.points < 0 then
          es ++ ["Metric " ++ mc.1 ++ " threshold points must be non-negative"]
        else es) errs) []

/-- `_validate_scoring_config` (`config_validator.py`, lines 138-143). -/
def validateScoringCfg (sc : Option (List (String × MetricCfg))) : Except String Unit :=
  match sc with
  | none => .ok ()
  | some cfg =>
    if (validateScoringConfigErrors cfg).isEmpty then .ok ()
    else .error "Scoring config validation errors"

/-- `_validate_financial_filters` (`config_validator.py`, lines 146-154). -/
def validateFinancialFilters (ff : Option (List FinFilter)) : Except String Unit :=
  match ff with
  | none => .ok ()
  | some fs =>
    if fs.all (fun f => f.column.isSome) then .ok ()
    else .error "Filter must have column specified"

/-- `_validate_ownership_filters` (`config_validator.py`, lines 157-160);
the dictionary type check holds by typing. -/
def validateOwnershipFilters (_of : Option Unit) : Except String Unit := .ok ()

/-- `validate_config` (`config_validator.py`, lines 5-16): run all the
validators in source order; the first raised error aborts. -/
def validate_config (c : Config) : Except String Unit := do
  validateYears c.years
  validateLegalForms c.legal_forms
  validateSkipSteps c.skip_steps
  validatePipelineMode c.use_dataframe_pipeline
  validateFormulasCfg c
  validateScoringCfg c.scoring_config
  validateFinancialFilters c.financial_filters
  validateOwnershipFilters c.ownership_filters

/-- The flagging condition of `flag_investment_vehicles` for year `y` at row
`i`, read off a table: the revenue column exists and equals one, or the
EBITDA-margin column exists and exceeds one. -/
def flagCond (data : Table) (y : ℤ) (i : ℕ) : Bool :=
  (match getCell data (revColName y) i with
   | some c => cellEqOne c
   | none => false) ||
  (match getCell data (ebitdaColName y) i with
   | some c => cellGtOne c
   | none => false)

/-- Side condition on a formula set: no formula output is named after the
flag column or a revenue column of a requested year (such a formula name
would make the flagger overwrite its own inputs). -/
def namesSafe (formulas : List (String × String)) (years : List ℤ) : Bool :=
  formulas.all (fun pr =>
    pr.1 != "investment_vehicle" && years.all (fun yq => pr.1 != revColName yq))

/-- Side condition on a formula set: a formula named after year `y`'s
EBITDA-margin column does not textually reference another requested year's
revenue column (otherwise an earlier year's nulling could blank year `y`'s
flag input before year `y` is processed). -/
def ebitdaSafe (formulas : List (String × String)) (years : List ℤ) (y : ℤ) : Bool :=
  formulas.all (fun pr =>
    pr.1 != ebitdaColName y ||
      years.all (fun yq => yq == y || !(containsChars (revColName yq).data pr.2.data)))

/-- Wrap a column reference in double or single quotes. -/
def quoteWrap (p : Bool × String) : String :=
  if p.1 then "\"" ++ p.2 ++ "\"" else "\x27" ++ p.2 ++ "\x27"

/-- Specification-side shape of a formula string (§4.1): leading arithmetic
text, then alternately a quoted column reference and arithmetic text. -/
def assembleFormula (g0 : String) : List ((Bool × String) × String) → String
  | [] => g0
  | p :: rest => g0 ++ quoteWrap p.1 ++ assembleFormula p.2 rest

/-- A string free of both quote characters (the supported input class of
§4.1 — quote characters inside column names are explicitly unsupported). -/
def quoteFreeStr (s : String) : Bool :=
  s.data.all (fun ch => !(ch == '"') && !(ch == '\''))

theorem optionMapM_congr {α β : Type} (l : List α) (f g : α → Option β)
    (h : ∀ a ∈ l, f a = g a) : l.mapM f = l.mapM g := by
  induction l with
  | nil => rfl
  | cons a as ih =>
    rw [List.mapM_cons, List.mapM_cons, h a (List.mem_cons_self a as),
      ih (fun b hb => h b (List.mem_cons_of_mem a hb))]

theorem create_formula_congr (s : String) (t1 t2 : Table)
    (h : ∀ c ∈ extract_quoted_columns s, getCol t1 c = getCol t2 c) :
    create_formula s t1 = create_formula s t2 := by
  unfold create_formula
  rw [optionMapM_congr (extract_quoted_columns s) _ _
    (fun c hc => by rw [h c hc])]

theorem getCol_setCol_self (t : Table) (n : String) (v : List Cell) :
    getCol (setCol t n v) n = some v := by
  induction t with
  | nil => simp [setCol, getCol]
  | cons p rest ih =>
    by_cases hm : p.1 = n
    · simp [setCol, hm, getCol]
    · simp [setCol, hm, getCol, ih]

theorem getCol_setCol_ne (t : Table) (k n : String) (v : List Cell) (h : k ≠ n) :
    getCol (setCol t k v) n = getCol t n := by
  induction t with
  | nil => simp [setCol, getCol, h]
  | cons p rest ih =>
    by_cases hm : p.1 = k
    · simp [setCol, hm, getCol, h, ih]
    · simp [setCol, hm, getCol, ih]

/-- C1: during formula evaluation every referenced-column value that is
absent or fails numeric coercion is replaced by the sentinel `1.0` (not
`0.0`) before the arithmetic expression is evaluated; in particular, for
every table whose column `X` holds values `["10", "bad", missing]`,
evaluating `"X" * 2` yields the vector `[20.0, 2.0, 2.0]`. -/
theorem sentinel_one_in_formula_evaluation :
    (∀ c : Cell, toNumericCell c = none → bindNumeric c = 1) ∧
    bindNumeric (Cell.str "bad") = 1 ∧
    bindNumeric Cell.missing = 1 ∧
    bindNumeric Cell.missing ≠ 0 ∧
    ∀ t : Table, getCol t "X" = some [Cell.str "10", Cell.str "bad", Cell.missing] →
      create_formula "\"X\" * 2" t = some (NpVal.vec [20, 2, 2]) := by
  refine ⟨fun c h => by simp [bindNumeric, h], by with_unfolding_all decide,
    by with_unfolding_all decide, by with_unfolding_all decide, fun t h => ?_⟩
  have hcongr := create_formula_congr "\"X\" * 2" t
    [("X", [Cell.str "10", Cell.str "bad", Cell.missing])] ?_
  · rw [hcongr]
    with_unfolding_all decide
  · have he : extract_quoted_columns "\"X\" * 2" = ["X"] := by decide
    rw [he]
    intro c hc
    rw [List.mem_singleton.mp hc, h]
    rfl

/-- C1 witness: the concrete one-column table. -/
theorem sentinel_one_in_formula_evaluation_witness :
    create_formula "\"X\" * 2" [("X", [Cell.str "10", Cell.str "bad", Cell.missing])] =
      some (NpVal.vec [20, 2, 2]) :=
  sentinel_one_in_formula_evaluation.2.2.2.2
    [("X", [Cell.str "10", Cell.str "bad", Cell.missing])] (by rfl)

/-- C8: `ebitda_margin(Y)` generates the formula
`(OperatingProfit_Y + |Depreciation_Y|) / Revenue_Y` over the year-suffixed
quoted columns (here at `Y = 2023`: the referenced columns, in order, and
the parsed shape), and evaluating the generated string on a one-row table
with operating profit 100, depreciation -20 and revenue 500 yields exactly
`0.24 = 6/25`. -/
theorem ebitda_margin_catalog_and_evaluation :
    extract_quoted_columns (ebitda_margin 2023) =
      ["Ärikasum (kahjum)_2023", "Põhivarade kulum ja väärtuse langus_2023",
        "Müügitulu_2023"] ∧
    (tokenize (ebitda_margin 2023).data).bind parseTokens =
      some (Expr.div
        (Expr.add (Expr.col "Ärikasum (kahjum)_2023")
          (Expr.abs (Expr.col "Põhivarade kulum ja väärtuse langus_2023")))
        (Expr.col "Müügitulu_2023")) ∧
    ∀ t : Table,
      getCol t "Ärikasum (kahjum)_2023" = some [Cell.num 100] →
      getCol t "Põhivarade kulum ja väärtuse langus_2023" = some [Cell.num (-20)] →
      getCol t "Müügitulu_2023" = some [Cell.num 500] →
      create_formula (ebitda_margin 2023) t = some (NpVal.vec [6 / 25]) := by
  refine ⟨by decide, by with_unfolding_all decide, fun t h1 h2 h3 => ?_⟩
  have hcongr := create_formula_congr (ebitda_margin 2023) t
    [("Ärikasum (kahjum)_2023", [Cell.num 100]),
     ("Põhivarade kulum ja väärtuse langus_2023", [Cell.num (-20)]),
     ("Müügitulu_2023", [Cell.num 500])] ?_
  · rw [hcongr]
    with_unfolding_all decide
  · have he : extract_quoted_columns (ebitda_margin 2023) =
        ["Ärikasum (kahjum)_2023", "Põhivarade kulum ja väärtuse langus_2023",
          "Müügitulu_2023"] := by decide
    rw [he]
    intro c hc
    simp only [List.mem_cons, List.mem_singleton, List.not_mem_nil, or_false] at hc
    rcases hc with rfl | rfl | rfl
    · rw [h1]; rfl
    · rw [h2]; rfl
    · rw [h3]; rfl

/-- C8 witness: the concrete one-row table. -/
theorem ebitda_margin_catalog_and_evaluation_witness :
    create_formula (ebitda_margin 2023)
      [("Ärikasum (kahjum)_2023", [Cell.num 100]),
       ("Põhivarade kulum ja väärtuse langus_2023", [Cell.num (-20)]),
       ("Müügitulu_2023", [Cell.num 500])] = some (NpVal.vec [6 / 25]) :=
  ebitda_margin_catalog_and_evaluation.2.2 _ (by rfl) (by rfl) (by rfl)

/-- C10: the output of `get_standard_formulas` depends only on the set of
requested years, not the order the caller lists them: the function first
stably sorts the years descending, and two permutations of one another sort
to the same list, so the returned name-to-formula mapping is identical. -/
theorem get_standard_formulas_perm_invariant (l1 l2 : List ℤ) (_h1 : l1 ≠ [])
    (hp : l1.Perm l2) : get_standard_formulas l1 = get_standard_formulas l2 := by
  have hs : sortYearsDesc l1 = sortYearsDesc l2 := by
    apply List.eq_of_perm_of_sorted (r := geZ)
    · exact (List.perm_insertionSort geZ l1).trans
        (hp.trans (List.perm_insertionSort geZ l2).symm)
    · exact List.sorted_insertionSort geZ l1
    · exact List.sorted_insertionSort geZ l2
  simp only [get_standard_formulas]
  rw [hs]

/-- C10 witness: two orderings of the same three years. -/
theorem get_standard_formulas_perm_invariant_witness :
    get_standard_formulas [2023, 2021, 2022] = get_standard_formulas [2021, 2022, 2023] :=
  get_standard_formulas_perm_invariant [2023, 2021, 2022] [2021, 2022, 2023]
    (by decide) (by decide)

/-- C2: per report identifier, if any (label-filtered) row of the report is
marked consolidated then exactly the consolidated rows of that report
survive the filter, otherwise all its (standalone) rows survive — stated as
a membership characterization of the surviving record set; and on a report
with a consolidated row valued 50 and a standalone row valued 40 for the
same canonical label, the pivoted column for that report holds 50 (the
pivot produces at most one value per (report, canonical label) pair). -/
theorem consolidated_standalone_resolution :
    (∀ (records : List FinRecord) (items : List String) (r : FinRecord),
      r ∈ consolidatedFilter (filterByItems records items) ↔
        r ∈ filterByItems records items ∧
          (hasConsolidated (filterByItems records items) r.report_id = true →
            isConsRecord r = true)) ∧
    getCol
      (load_financial_data 2023
        [⟨1, some "aruanne", some "Müügitulu Konsolideeritud", Cell.num 50⟩,
         ⟨1, some "aruanne", some "Müügitulu", Cell.num 40⟩]
        ["Müügitulu"])
      "Müügitulu_2023" = some [Cell.num 50] := by
  have hb : ∀ a b : Bool, ((!a || b) = true) ↔ (a = true → b = true) := by decide
  refine ⟨fun records items r => ?_, by with_unfolding_all decide⟩
  simp only [consolidatedFilter, List.mem_filter]
  exact and_congr_right (fun _ => hb _ _)

theorem hasCol_setCol (t : Table) (k n : String) (v : List Cell) :
    hasCol (setCol t k v) n = (hasCol t n || k == n) := by
  by_cases h : k = n
  · subst h
    simp [hasCol, getCol_setCol_self]
  · simp [hasCol, getCol_setCol_ne t k n v h, h]

theorem hasCol_apply_formulas (d : Table) (fs : List (String × String)) (n : String) :
    hasCol (apply_formulas d fs) n = (hasCol d n || (fs.map Prod.fst).contains n) := by
  induction fs generalizing d with
  | nil => simp [apply_formulas]
  | cons f rest ih =>
    simp only [apply_formulas] at ih ⊢
    rw [List.foldl_cons, ih]
    have hstep : hasCol
        (match create_formula f.2 d with
          | some v => setCol d f.1 (npValToColumn v (nrows d))
          | none => setCol d f.1 (List.replicate (nrows d) Cell.missing)) n =
        (hasCol d n || f.1 == n) := by
      cases create_formula f.2 d with
      | none => exact hasCol_setCol d f.1 n _
      | some v => exact hasCol_setCol d f.1 n _
    rw [hstep]
    have hbeq : (f.1 == n) = (n == f.1) := by
      by_cases h : f.1 = n
      · subst h; rfl
      · have h2 : ¬n = f.1 := fun hh => h hh.symm
        simp [h, h2]
    rw [hbeq]
    simp [List.contains_cons, Bool.or_assoc]

/-- C4 counterexample: in the ratio-calculation stage's custom-formula path
(`orchestrator.py`, lines 121-130), the formula `f` referencing the absent
column `Missing` fails validation (the error list is non-empty) and is then
silently dropped: the output table has no column `f` at all, rather than a
column filled with the missing-value marker. -/
theorem failed_validation_formula_dropped_counterexample :
    getCol (customFormulaPath [("A", [Cell.num 5])] [("f", "\"Missing\" * 2")]) "f" = none ∧
    (validate_formulas [("f", "\"Missing\" * 2")] [("A", [Cell.num 5])]).2 ≠ [] := by
  with_unfolding_all decide

/-- C4 amended: in the formula application loop (`apply_formulas`, the shape
shared with `calculate_ratios` lines 246-253), a formula whose evaluation
fails still produces an output column filled with the missing-value marker;
but in the orchestrator's custom-formula path a formula that fails
validation is excluded from application entirely and produces no output
column (its name is absent unless the input table already had it). -/
theorem failed_formula_marker_or_dropped :
    (∀ (data : Table) (fs : List (String × String)) (n e : String),
      create_formula e (apply_formulas data fs) = none →
      getCol (apply_formulas data (fs ++ [(n, e)])) n =
        some (List.replicate (nrows (apply_formulas data fs)) Cell.missing)) ∧
    (∀ (data : Table) (fs : List (String × String)) (n : String),
      hasCol data n = false →
      ((validate_formulas fs data).1.map Prod.fst).contains n = false →
      hasCol (customFormulaPath data fs) n = false) := by
  constructor
  · intro data fs n e h
    simp only [apply_formulas, List.foldl_append, List.foldl_cons, List.foldl_nil]
    simp only [apply_formulas] at h
    rw [h]
    exact getCol_setCol_self _ _ _
  · intro data fs n h1 h2
    unfold customFormulaPath
    rw [hasCol_apply_formulas, h1, h2]
    rfl

/-- C4 amended witness: a one-formula set whose formula references a missing
column gets a marker-filled column from the application loop, while the
custom-formula path drops it. -/
theorem failed_formula_marker_or_dropped_witness :
    getCol (apply_formulas [("A", [Cell.num 5])] ([] ++ [("f", "\"Missing\" * 2")])) "f" =
      some (List.replicate (nrows (apply_formulas [("A", [Cell.num 5])] [])) Cell.missing) ∧
    hasCol (customFormulaPath [("A", [Cell.num 5])] [("f", "\"Missing\" * 2")]) "f" = false :=
  ⟨failed_formula_marker_or_dropped.1 [("A", [Cell.num 5])] [] "f" "\"Missing\" * 2"
      (by with_unfolding_all decide),
    failed_formula_marker_or_dropped.2 [("A", [Cell.num 5])] [("f", "\"Missing\" * 2")] "f"
      (by with_unfolding_all decide) (by with_unfolding_all decide)⟩

theorem except_bind_error_of_all {α β : Type} (x : Except String α)
    (f : α → Except String β) (h : ∀ a, ∃ m, f a = .error m) :
    ∃ m, (x >>= f) = .error m := by
  cases x with
  | error e => exact ⟨e, rfl⟩
  | ok a => exact h a

theorem except_bind_error_of_first {α β : Type} (x : Except String α)
    (f : α → Except String β) (h : ∃ m, x = .error m) :
    ∃ m, (x >>= f) = .error m := by
  obtain ⟨m, hm⟩ := h
  exact ⟨m, by rw [hm]; rfl⟩

theorem validateFormulasCfg_error_of_overlap (c : Config)
    (h : (c.custom_formulas.map Prod.fst).filter
      (fun n => (getGeneratedFormulaNames c.standard_formulas).contains n) ≠ []) :
    ∃ m, validateFormulasCfg c = .error m := by
  unfold validateFormulasCfg
  apply except_bind_error_of_all
  intro _
  apply except_bind_error_of_all
  intro _
  have hne : ((c.custom_formulas.map Prod.fst).filter
      (fun n => (getGeneratedFormulaNames c.standard_formulas).contains n)).isEmpty = false := by
    cases hl : (c.custom_formulas.map Prod.fst).filter
        (fun n => (getGeneratedFormulaNames c.standard_formulas).contains n) with
    | nil => exact absurd hl h
    | cons a as => rfl
  exact ⟨_, by simp only [hne]; rfl⟩

/-- C5: `validate_config` raises a descriptive error whenever the set of
formula names the standard-formula configuration would generate (re-derived
by `getGeneratedFormulaNames` with the `_single` suffix inserted exactly
when `use_averages` is false and only for the roe/roa/asset_turnover/
employee_efficiency families) intersects the custom-formula name set —
regardless of what the remaining configuration looks like, validation never
succeeds on such a configuration. -/
theorem config_name_collision_raises (c : Config)
    (h : (c.custom_formulas.map Prod.fst).filter
      (fun n => (getGeneratedFormulaNames c.standard_formulas).contains n) ≠ []) :
    ∃ msg, validate_config c = .error msg := by
  unfold validate_config
  apply except_bind_error_of_all
  intro _
  apply except_bind_error_of_all
  intro _
  apply except_bind_error_of_all
  intro _
  apply except_bind_error_of_all
  intro _
  exact except_bind_error_of_first _ _ (validateFormulasCfg_error_of_overlap c h)

/-- C5 witness: a standard configuration generating `roe_2023` together with
a custom formula also named `roe_2023` raises. -/
theorem config_name_collision_raises_witness :
    ∃ msg, validate_config
      { years := some [2023],
        standard_formulas := [("roe", { years := some [2023] })],
        custom_formulas := [("roe_2023", "\"X\" + 1")] } = .error msg :=
  config_name_collision_raises _ (by decide)

theorem foldl_thrStep_ne_zero (v s : ℚ) (ts : List ThresholdCfg) (h : s ≠ 0) :
    ts.foldl (thrStep v) s = s := by
  induction ts with
  | nil => rfl
  | cons t rest ih =>
    have hstep : thrStep v s t = s := by
      unfold thrStep
      cases t.minB with
      | some m => simp [h]
      | none =>
        cases t.maxB with
        | some mx => simp [h]
        | none => rfl
    rw [List.foldl_cons, hstep, ih]

theorem foldl_thrStep_zero_all_zero (v : ℚ) (ts : List ThresholdCfg)
    (h : ∀ t ∈ ts, t.points = 0) : ts.foldl (thrStep v) 0 = 0 := by
  induction ts with
  | nil => rfl
  | cons t rest ih =>
    have hz := h t (List.mem_cons_self t rest)
    have hstep : thrStep v 0 t = 0 := by
      unfold thrStep
      cases t.minB with
      | some m => simp [hz]
      | none =>
        cases t.maxB with
        | some mx => simp [hz]
        | none => rfl
    rw [List.foldl_cons, hstep, ih (fun u hu => h u (List.mem_cons_of_mem t hu))]

theorem foldScore_eq_find (v : ℚ) :
    ∀ ts : List ThresholdCfg, List.Sorted thrLeMin ts →
      (∀ t ∈ ts, t.minB.isSome) → (∀ t ∈ ts, 0 ≤ t.points) →
      foldScore ts v = ((ts.find? (specMeetsMin v)).map ThresholdCfg.points).getD 0 := by
  intro ts
  induction ts with
  | nil => intro _ _ _; rfl
  | cons t rest ih =>
    intro hsort hmin hpts
    obtain ⟨hrel, hsort2⟩ := List.sorted_cons.mp hsort
    obtain ⟨m, hm⟩ := Option.isSome_iff_exists.mp (hmin t (List.mem_cons_self t rest))
    by_cases hv : m ≤ v
    · have hmeets : specMeetsMin v t = true := by simp [specMeetsMin, hm, hv]
      rw [List.find?_cons_of_pos _ hmeets]
      simp only [foldScore, List.foldl_cons]
      have hstep : thrStep v 0 t = t.points := by simp [thrStep, hm, hv]
      rw [hstep]
      by_cases hz : t.points = 0
      · rw [hz, foldl_thrStep_zero_all_zero v rest ?_]
        · simp [hz]
        · intro u hu
          have hge := hpts u (List.mem_cons_of_mem t hu)
          rcases hrel u hu with h1 | ⟨h1, _⟩
          · exact absurd (hz ▸ h1) (not_lt.mpr hge)
          · exact h1.symm.trans hz
      · rw [foldl_thrStep_ne_zero v t.points rest hz]
        simp
    · have hmeets : specMeetsMin v t = false := by simp [specMeetsMin, hm, hv]
      rw [List.find?_cons_of_neg _ (by simp [hmeets])]
      simp only [foldScore, List.foldl_cons]
      have hstep : thrStep v 0 t = 0 := by simp [thrStep, hm, hv]
      rw [hstep]
      exact ih hsort2 (fun u hu => hmin u (List.mem_cons_of_mem t hu))
        (fun u hu => hpts u (List.mem_cons_of_mem t hu))

theorem sort_thresholds_all_min (ts : List ThresholdCfg)
    (hall : ∀ t ∈ ts, t.minB.isSome ∧ t.maxB = none) :
    sort_thresholds ts = List.insertionSort thrLeMin ts := by
  unfold sort_thresholds
  have hmins : ts.filter (fun t => t.minB.isSome) = ts :=
    List.filter_eq_self.mpr (fun a ha => (hall a ha).1)
  have hmaxs : ts.filter (fun t => t.maxB.isSome) = [] := by
    apply List.filter_eq_nil_iff.mpr
    intro a ha
    simp [(hall a ha).2]
  simp only [hmins, hmaxs]
  cases hts : ts with
  | nil => simp
  | cons a l => simp

/-- C6: for a metric whose thresholds are all min-type, scoring sorts the
thresholds by points descending then min-bound descending (`sort_thresholds`)
and awards each record, independently, the points of the first threshold in
that order whose bound its value meets (`find?`), with `0` when no threshold
matches (`getD 0`); with thresholds (min 0.40: 3 pts, min 0.20: 2 pts,
min 0.10: 1 pt), a record valued 0.25 scores exactly 2. -/
theorem min_threshold_scoring :
    (∀ (ts : List ThresholdCfg) (v : ℚ),
      (∀ t ∈ ts, t.minB.isSome ∧ t.maxB = none) →
      (∀ t ∈ ts, 0 ≤ t.points) →
      foldScore (sort_thresholds ts) v =
        (((sort_thresholds ts).find? (specMeetsMin v)).map ThresholdCfg.points).getD 0) ∧
    scoreCell (sort_thresholds
        [⟨some (2/5), none, 3⟩, ⟨some (1/5), none, 2⟩, ⟨some (1/10), none, 1⟩])
      (Cell.num (1/4)) = 2 := by
  constructor
  · intro ts v hall hpts
    rw [sort_thresholds_all_min ts hall]
    refine foldScore_eq_find v _ (List.sorted_insertionSort thrLeMin ts) ?_ ?_
    · intro u hu
      exact (hall u ((List.perm_insertionSort thrLeMin ts).mem_iff.mp hu)).1
    · intro u hu
      exact hpts u ((List.perm_insertionSort thrLeMin ts).mem_iff.mp hu)
  · with_unfolding_all decide

/-- C6 witness: the fold-computed score coincides with the first-matching
threshold's points on the concrete example. -/
theorem min_threshold_scoring_witness :
    foldScore (sort_thresholds
        [⟨some (2/5), none, 3⟩, ⟨some (1/5), none, 2⟩, ⟨some (1/10), none, 1⟩]) (1/4) =
      (((sort_thresholds
        [⟨some (2/5), none, 3⟩, ⟨some (1/5), none, 2⟩,
          ⟨some (1/10), none, 1⟩]).find? (specMeetsMin (1/4))).map ThresholdCfg.points).getD 0 :=
  min_threshold_scoring.1 _ _ (by with_unfolding_all decide) (by with_unfolding_all decide)

theorem takeWhile_append_all {p : Char → Bool} :
    ∀ l1 l2 : List Char, (∀ a ∈ l1, p a = true) →
      (l1 ++ l2).takeWhile p = l1 ++ l2.takeWhile p := by
  intro l1
  induction l1 with
  | nil => intro l2 _; rfl
  | cons c cs ih =>
    intro l2 h
    have hc : p c = true := h c (List.mem_cons_self c cs)
    simp [List.takeWhile_cons, hc, ih l2 (fun a ha => h a (List.mem_cons_of_mem c ha))]

theorem dropWhile_append_all {p : Char → Bool} :
    ∀ l1 l2 : List Char, (∀ a ∈ l1, p a = true) →
      (l1 ++ l2).dropWhile p = l2.dropWhile p := by
  intro l1
  induction l1 with
  | nil => intro l2 _; rfl
  | cons c cs ih =>
    intro l2 h
    have hc : p c = true := h c (List.mem_cons_self c cs)
    simp [List.dropWhile_cons, hc, ih l2 (fun a ha => h a (List.mem_cons_of_mem c ha))]

theorem scanQuotedF_irrel (f1 : ℕ) :
    ∀ (l : List Char) (f2 : ℕ), l.length ≤ f1 → l.length ≤ f2 →
      scanQuotedF f1 l = scanQuotedF f2 l := by
  induction f1 with
  | zero =>
    intro l f2 h1 _
    have hl : l = [] := List.eq_nil_of_length_eq_zero (Nat.le_zero.mp h1)
    subst hl
    cases f2 <;> rfl
  | succ n ih =>
    intro l f2 h1 h2
    cases l with
    | nil => cases f2 <;> rfl
    | cons c rest =>
      cases f2 with
      | zero => simp at h2
      | succ m =>
        have hrest1 : rest.length ≤ n := by simpa using h1
        have hrest2 : rest.length ≤ m := by simpa using h2
        show scanQuotedF (n + 1) (c :: rest) = scanQuotedF (m + 1) (c :: rest)
        simp only [scanQuotedF]
        by_cases hc : c = '"'
        · simp only [if_pos hc]
          cases hdrop : rest.dropWhile (notQuote '"') with
          | nil => exact ih rest m hrest1 hrest2
          | cons d after =>
            have hafter : after.length < rest.length := by
              have hs := List.dropWhile_sublist (l := rest) (notQuote '"')
              rw [hdrop] at hs
              have := hs.length_le
              simp at this
              omega
            by_cases htake : rest.takeWhile (notQuote '"') = []
            · simp only [if_pos htake]
              exact ih rest m hrest1 hrest2
            · simp only [if_neg htake]
              rw [ih after m (by omega) (by omega)]
        · simp only [if_neg hc]
          by_cases hc2 : c = '\''
          · simp only [if_pos hc2]
            cases hdrop : rest.dropWhile (notQuote '\'') with
            | nil => exact ih rest m hrest1 hrest2
            | cons d after =>
              have hafter : after.length < rest.length := by
                have hs := List.dropWhile_sublist (l := rest) (notQuote '\'')
                rw [hdrop] at hs
                have := hs.length_le
                simp at this
                omega
              by_cases htake : rest.takeWhile (notQuote '\'') = []
              · simp only [if_pos htake]
                exact ih rest m hrest1 hrest2
              · simp only [if_neg htake]
                rw [ih after m (by omega) (by omega)]
          · simp only [if_neg hc2]
            exact ih rest m hrest1 hrest2

theorem scanQuoted_cons_other (c : Char) (l : List Char) (h1 : c ≠ '"') (h2 : c ≠ '\'') :
    scanQuoted (c :: l) = scanQuoted l := by
  unfold scanQuoted
  simp only [List.length_cons, scanQuotedF, if_neg h1, if_neg h2]

theorem scanQuoted_glue :
    ∀ g rest : List Char, (∀ ch ∈ g, ch ≠ '"' ∧ ch ≠ '\'') →
      scanQuoted (g ++ rest) = scanQuoted rest := by
  intro g
  induction g with
  | nil => intro rest _; rfl
  | cons c cs ih =>
    intro rest h
    have hc := h c (List.mem_cons_self c cs)
    rw [List.cons_append, scanQuoted_cons_other c (cs ++ rest) hc.1 hc.2,
      ih rest (fun a ha => h a (List.mem_cons_of_mem c ha))]

theorem scanQuoted_dquoted (name rest : List Char) (hne : name ≠ [])
    (hq : ∀ ch ∈ name, ch ≠ '"') :
    scanQuoted ('"' :: (name ++ '"' :: rest)) = name :: scanQuoted rest := by
  have hpn : ∀ a ∈ name, notQuote '"' a = true := by
    intro a ha
    simp [notQuote, hq a ha]
  have hdrop : (name ++ '"' :: rest).dropWhile (notQuote '"') = '"' :: rest := by
    rw [dropWhile_append_all name ('"' :: rest) hpn]
    simp [List.dropWhile_cons, notQuote]
  have htake : (name ++ '"' :: rest).takeWhile (notQuote '"') = name := by
    rw [takeWhile_append_all name ('"' :: rest) hpn]
    simp [List.takeWhile_cons, notQuote]
  unfold scanQuoted
  simp only [List.length_cons, scanQuotedF, if_pos rfl, hdrop, htake, if_neg hne]
  refine congrArg (fun x => name :: x) ?_
  apply scanQuotedF_irrel
  · simp [List.length_append]
    omega
  · exact le_refl _

theorem scanQuoted_squoted (name rest : List Char) (hne : name ≠ [])
    (hq : ∀ ch ∈ name, ch ≠ '\'') :
    scanQuoted ('\'' :: (name ++ '\'' :: rest)) = name :: scanQuoted rest := by
  have hpn : ∀ a ∈ name, notQuote '\'' a = true := by
    intro a ha
    simp [notQuote, hq a ha]
  have hdrop : (name ++ '\'' :: rest).dropWhile (notQuote '\'') = '\'' :: rest := by
    rw [dropWhile_append_all name ('\'' :: rest) hpn]
    simp [List.dropWhile_cons, notQuote]
  have htake : (name ++ '\'' :: rest).takeWhile (notQuote '\'') = name := by
    rw [takeWhile_append_all name ('\'' :: rest) hpn]
    simp [List.takeWhile_cons, notQuote]
  unfold scanQuoted
  simp only [List.length_cons, scanQuotedF, if_neg (by decide : ¬('\'' = '"')), if_pos rfl,
    hdrop, htake, if_neg hne]
  refine congrArg (fun x => name :: x) ?_
  apply scanQuotedF_irrel
  · simp [List.length_append]
    omega
  · exact le_refl _

theorem quoteFree_chars (s : String) (hs : quoteFreeStr s = true) :
    ∀ ch ∈ s.data, ch ≠ '"' ∧ ch ≠ '\'' := by
  intro ch hch
  have := List.all_eq_true.mp hs ch hch
  simpa using this

theorem data_ne_nil_of_ne_empty (s : String) (h : s ≠ "") : s.data ≠ [] := by
  intro hd
  apply h
  cases s with
  | mk d =>
    simp only at hd
    subst hd
    rfl

/-- C9: the column-reference extractor returns exactly the literals enclosed
in matching double- or single-quote pairs, once per occurrence in
left-to-right source order with duplicates retained — stated over the
supported input class of §4.1 (quote-free column names and arithmetic text,
quote characters inside names being explicitly unsupported): extracting from
any formula assembled as arithmetic text alternating with quoted references
returns precisely the reference names in order.  An empty or missing
(`None`) input yields the empty list. -/
theorem extract_columns_exactly_quoted :
    (∀ (g0 : String) (parts : List ((Bool × String) × String)),
      quoteFreeStr g0 = true →
      (∀ pr ∈ parts, pr.1.2 ≠ "" ∧ quoteFreeStr pr.1.2 = true ∧ quoteFreeStr pr.2 = true) →
      extract_quoted_columns (assembleFormula g0 parts) = parts.map (fun pr => pr.1.2)) ∧
    extract_quoted_columns "" = [] ∧
    extractQuotedColumnsOpt none = [] := by
  refine ⟨?_, rfl, rfl⟩
  intro g0 parts
  induction parts generalizing g0 with
  | nil =>
    intro hg _
    show extract_quoted_columns g0 = []
    unfold extract_quoted_columns
    have hs : scanQuoted g0.data = scanQuoted [] := by
      have := scanQuoted_glue g0.data [] (quoteFree_chars g0 hg)
      simpa using this
    rw [hs]
    rfl
  | cons p ps ih =>
    intro hg hparts
    obtain ⟨hne, hqname, hqglue⟩ := hparts p (List.mem_cons_self p ps)
    rcases p with ⟨⟨b, name⟩, glue⟩
    show extract_quoted_columns (g0 ++ quoteWrap (b, name) ++ assembleFormula glue ps) = _
    unfold extract_quoted_columns
    have hdata : (g0 ++ quoteWrap (b, name) ++ assembleFormula glue ps).data
        = g0.data ++ ((quoteWrap (b, name)).data ++ (assembleFormula glue ps).data) := by
      rw [String.data_append, String.data_append, List.append_assoc]
    rw [hdata, scanQuoted_glue g0.data _ (quoteFree_chars g0 hg)]
    have hndata : name.data ≠ [] := data_ne_nil_of_ne_empty name hne
    have hnq := quoteFree_chars name hqname
    have htail : (scanQuoted (assembleFormula glue ps).data).map (fun cs => String.mk cs)
        = ps.map (fun pr => pr.1.2) :=
      ih glue hqglue (fun pr hpr => hparts pr (List.mem_cons_of_mem _ hpr))
    cases b with
    | true =>
      have hwrap : (quoteWrap (true, name)).data ++ (assembleFormula glue ps).data
          = '"' :: (name.data ++ '"' :: (assembleFormula glue ps).data) := by
        simp [quoteWrap, String.data_append]
      rw [hwrap, scanQuoted_dquoted name.data _ hndata (fun ch hch => (hnq ch hch).1)]
      simp only [List.map_cons, List.map]
      rw [htail]
    | false =>
      have hwrap : (quoteWrap (false, name)).data ++ (assembleFormula glue ps).data
          = '\'' :: (name.data ++ '\'' :: (assembleFormula glue ps).data) := by
        simp [quoteWrap, String.data_append]
      rw [hwrap, scanQuoted_squoted name.data _ hndata (fun ch hch => (hnq ch hch).2)]
      simp only [List.map_cons, List.map]
      rw [htail]

/-- C9 witness: a concrete formula mixing both quote styles with a repeated
reference extracts the three names in order. -/
theorem extract_columns_exactly_quoted_witness :
    extract_quoted_columns
      (assembleFormula "(" [((true, "A"), " + "), ((false, "B"), ") / "), ((true, "A"), "")]) =
      ["A", "B", "A"] :=
  extract_columns_exactly_quoted.1 "("
    [((true, "A"), " + "), ((false, "B"), ") / "), ((true, "A"), "")]
    (by decide) (by decide)

theorem hasCol_maskSet_mono (t : Table) (k n : String) (mask : List Bool) (v : Cell)
    (ht : hasCol t n = true) : hasCol (maskSet t k mask v) n = true := by
  unfold maskSet
  cases hk : getCol t k with
  | none => exact ht
  | some col => simp [hasCol_setCol, ht]

theorem hasCol_ivStep_mono (fs : List (String × String)) (r : Table) (y : ℤ) (n : String)
    (h : hasCol r n = true) : hasCol (ivStep fs r y) n = true := by
  unfold ivStep
  have hfold : ∀ (deps : List (String × String)) (acc : Table), hasCol acc n = true →
      hasCol (deps.foldl (fun acc nf =>
        if hasCol acc nf.1 then maskSet acc nf.1 (ivMask r y) Cell.missing else acc) acc)
        n = true := by
    intro deps
    induction deps with
    | nil => intro acc hacc; exact hacc
    | cons d ds ihd =>
      intro acc hacc
      rw [List.foldl_cons]
      apply ihd
      split
      · exact hasCol_maskSet_mono acc d.1 n _ _ hacc
      · exact hacc
  exact hfold _ _ (hasCol_maskSet_mono r "investment_vehicle" n _ _ h)

theorem hasCol_flag_investment_vehicles (t : Table) (years : List ℤ)
    (fs : List (String × String)) :
    hasCol (flag_investment_vehicles t years fs) "investment_vehicle" = true := by
  unfold flag_investment_vehicles
  have hfold : ∀ (ys : List ℤ) (acc : Table), hasCol acc "investment_vehicle" = true →
      hasCol (ys.foldl (ivStep fs) acc) "investment_vehicle" = true := by
    intro ys
    induction ys with
    | nil => intro acc h; exact h
    | cons y ys2 ihy =>
      intro acc h
      exact ihy _ (hasCol_ivStep_mono fs acc y _ h)
  apply hfold
  simp [hasCol, getCol_setCol_self]

/-- C3 (refuted by the code): `calculate_ratios`
(`calculations.py`, lines 71-260) never applies the Investment Vehicle
Flagger.  At a concrete successful invocation whose single record even
satisfies the flagging condition (sentinel revenue `1.0` for 2023), the
returned table has no `investment_vehicle` column, while applying
`flag_investment_vehicles` to that result — as spec §4.6 step 7 prescribes —
would add it. -/
theorem calculate_ratios_lacks_investment_vehicle :
    hasCol
      (calculate_ratios
        [("company_code", [Cell.num 1]), ("Müügitulu_2023", [Cell.num 1])]
        [2023] [] [] (fun _ => none))
      "investment_vehicle" = false ∧
    flagCond
      (calculate_ratios
        [("company_code", [Cell.num 1]), ("Müügitulu_2023", [Cell.num 1])]
        [2023] [] [] (fun _ => none))
      2023 0 = true ∧
    hasCol
      (flag_investment_vehicles
        (calculate_ratios
          [("company_code", [Cell.num 1]), ("Müügitulu_2023", [Cell.num 1])]
          [2023] [] [] (fun _ => none))
        [2023] [])
      "investment_vehicle" = true :=
  ⟨by with_unfolding_all decide, by with_unfolding_all decide,
    hasCol_flag_investment_vehicles _ _ _⟩

theorem mem_first_split {α : Type} [DecidableEq α] {a : α} {l : List α} (h : a ∈ l) :
    ∃ s t, l = s ++ a :: t ∧ a ∉ s := by
  induction l with
  | nil => cases h
  | cons b bs ih =>
    by_cases hb : a = b
    · exact ⟨[], bs, by simp [hb], by simp⟩
    · have hmem : a ∈ bs := by
        rcases List.mem_cons.mp h with h1 | h1
        · exact absurd h1 hb
        · exact h1
      obtain ⟨s, t, hst, hns⟩ := ih hmem
      exact ⟨b :: s, t, by simp [hst], by simp [hb, hns]⟩

theorem revColName_ne_flag (y : ℤ) : revColName y ≠ "investment_vehicle" := by
  intro h
  unfold revColName at h
  have h2 := congrArg String.data h
  rw [String.data_append] at h2
  have e1 : "Müügitulu_".data = 'M' :: "üügitulu_".data := by decide
  have e2 : "investment_vehicle".data = 'i' :: "nvestment_vehicle".data := by decide
  rw [e1, e2, List.cons_append] at h2
  injection h2 with hh _
  exact absurd hh (by decide)

theorem ebitdaColName_ne_flag (y : ℤ) : ebitdaColName y ≠ "investment_vehicle" := by
  intro h
  unfold ebitdaColName at h
  have h2 := congrArg String.data h
  rw [String.data_append] at h2
  have e1 : "ebitda_margin_".data = 'e' :: "bitda_margin_".data := by decide
  have e2 : "investment_vehicle".data = 'i' :: "nvestment_vehicle".data := by decide
  rw [e1, e2, List.cons_append] at h2
  injection h2 with hh _
  exact absurd hh (by decide)

theorem getCol_mem (t : Table) (k : String) (col : List Cell)
    (h : getCol t k = some col) : (k, col) ∈ t := by
  induction t with
  | nil => simp [getCol] at h
  | cons p rest ih =>
    obtain ⟨p1, p2⟩ := p
    by_cases hp : p1 = k
    · simp only [getCol, if_pos hp] at h
      subst hp
      injection h with h2
      subst h2
      exact List.mem_cons_self _ _
    · simp only [getCol, if_neg hp] at h
      exact List.mem_cons_of_mem _ (ih h)

/-- Rectangularity invariant: every column of the table has length `n` and
the table's row count is `n`. -/
def TWF (n : ℕ) (t : Table) : Prop :=
  (∀ p ∈ t, p.2.length = n) ∧ nrows t = n

theorem getCol_length (n : ℕ) (t : Table) (k : String) (col : List Cell)
    (hWF : TWF n t) (h : getCol t k = some col) : col.length = n :=
  hWF.1 (k, col) (getCol_mem t k col h)

theorem mem_setCol {t : Table} {k : String} {v : List Cell} {p : String × List Cell}
    (hp : p ∈ setCol t k v) : p ∈ t ∨ p.2 = v := by
  induction t with
  | nil =>
    simp only [setCol, List.mem_singleton] at hp
    right
    rw [hp]
  | cons q rest ih =>
    by_cases hq : q.1 = k
    · simp only [setCol, if_pos hq, List.mem_cons] at hp
      rcases hp with hp | hp
      · right; rw [hp]
      · left; exact List.mem_cons_of_mem q hp
    · simp only [setCol, if_neg hq, List.mem_cons] at hp
      rcases hp with hp | hp
      · left; exact hp ▸ List.mem_cons_self q rest
      · rcases ih hp with h | h
        · left; exact List.mem_cons_of_mem q h
        · right; exact h

theorem TWF_setCol (n : ℕ) (t : Table) (k : String) (v : List Cell)
    (hWF : TWF n t) (hv : v.length = n) : TWF n (setCol t k v) := by
  constructor
  · intro p hp
    rcases mem_setCol hp with h | h
    · exact hWF.1 p h
    · rw [h]; exact hv
  · cases t with
    | nil => exact hv
    | cons q rest =>
      by_cases hq : q.1 = k
      · simp only [setCol, if_pos hq, nrows]
        exact hv
      · simp only [setCol, if_neg hq, nrows]
        exact hWF.1 q (List.mem_cons_self q rest)

theorem TWF_maskSet (n : ℕ) (t : Table) (k : String) (mask : List Bool) (v : Cell)
    (hWF : TWF n t) (hm : mask.length = n) : TWF n (maskSet t k mask v) := by
  unfold maskSet
  cases hk : getCol t k with
  | none => exact hWF
  | some col =>
    apply TWF_setCol n t k _ hWF
    rw [List.length_zipWith, hm, getCol_length n t k col hWF hk]
    exact min_self n

theorem length_orMasks (a b : List Bool) : (orMasks a b).length = min a.length b.length :=
  List.length_zipWith _ a b

theorem length_ivMask (n : ℕ) (r : Table) (y : ℤ) (hWF : TWF n r) :
    (ivMask r y).length = n := by
  unfold ivMask colMask
  cases h1 : getCol r (revColName y) with
  | none =>
    cases h2 : getCol r (ebitdaColName y) with
    | none => rw [List.length_replicate, hWF.2]
    | some col2 =>
      rw [length_orMasks, List.length_replicate, hWF.2, List.length_map,
        getCol_length n r _ col2 hWF h2, min_self]
  | some col1 =>
    cases h2 : getCol r (ebitdaColName y) with
    | none =>
      rw [length_orMasks, List.length_replicate, hWF.2, List.length_map,
        getCol_length n r _ col1 hWF h1, min_self]
    | some col2 =>
      rw [length_orMasks, length_orMasks, List.length_replicate, hWF.2, List.length_map,
        List.length_map, getCol_length n r _ col1 hWF h1,
        getCol_length n r _ col2 hWF h2, min_self, min_self]

theorem TWF_nullFold (n : ℕ) (mask : List Bool) (hm : mask.length = n) :
    ∀ (deps : List (String × String)) (acc : Table), TWF n acc →
      TWF n (deps.foldl (fun acc nf =>
        if hasCol acc nf.1 then maskSet acc nf.1 mask Cell.missing else acc) acc) := by
  intro deps
  induction deps with
  | nil => intro acc h; exact h
  | cons d ds ih =>
    intro acc h
    rw [List.foldl_cons]
    apply ih
    split
    · exact TWF_maskSet n acc d.1 mask Cell.missing h hm
    · exact h

theorem TWF_ivStep (n : ℕ) (fs : List (String × String)) (r : Table) (y : ℤ)
    (hWF : TWF n r) : TWF n (ivStep fs r y) := by
  unfold ivStep
  exact TWF_nullFold n (ivMask r y) (length_ivMask n r y hWF) _ _
    (TWF_maskSet n r _ _ _ hWF (length_ivMask n r y hWF))

theorem TWF_yearsFold (n : ℕ) (fs : List (String × String)) :
    ∀ (ys : List ℤ) (acc : Table), TWF n acc → TWF n (ys.foldl (ivStep fs) acc) := by
  intro ys
  induction ys with
  | nil => intro acc h; exact h
  | cons y ys2 ih =>
    intro acc h
    rw [List.foldl_cons]
    exact ih _ (TWF_ivStep n fs acc y h)

theorem getCol_maskSet_ne (t : Table) (k : String) (mask : List Bool) (v : Cell)
    (c : String) (h : c ≠ k) : getCol (maskSet t k mask v) c = getCol t c := by
  unfold maskSet
  cases hk : getCol t k with
  | none => rfl
  | some col => exact getCol_setCol_ne t k c _ (fun hh => h hh.symm)

theorem getCol_nullFold_ne (mask : List Bool) (c : String) :
    ∀ (deps : List (String × String)) (acc : Table), (∀ d ∈ deps, d.1 ≠ c) →
      getCol (deps.foldl (fun acc nf =>
        if hasCol acc nf.1 then maskSet acc nf.1 mask Cell.missing else acc) acc) c
        = getCol acc c := by
  intro deps
  induction deps with
  | nil => intro acc _; rfl
  | cons d ds ih =>
    intro acc h
    rw [List.foldl_cons]
    rw [ih _ (fun e he => h e (List.mem_cons_of_mem d he))]
    split
    · exact getCol_maskSet_ne acc d.1 mask Cell.missing c
        (fun hh => h d (List.mem_cons_self d ds) hh.symm)
    · rfl

theorem getCol_ivStep_ne (fs : List (String × String)) (r : Table) (y : ℤ) (c : String)
    (hflag : c ≠ "investment_vehicle")
    (hdeps : ∀ nf ∈ fs, containsChars (revColName y).data nf.2.data = true → nf.1 ≠ c) :
    getCol (ivStep fs r y) c = getCol r c := by
  unfold ivStep
  rw [getCol_nullFold_ne _ c _ _ ?_]
  · exact getCol_maskSet_ne r _ _ _ c hflag
  · intro d hd
    have := List.mem_filter.mp hd
    exact hdeps d this.1 this.2

theorem getCol_yearsFold_ne (fs : List (String × String)) (c : String)
    (hflag : c ≠ "investment_vehicle") :
    ∀ (ys : List ℤ) (acc : Table),
      (∀ y ∈ ys, ∀ nf ∈ fs, containsChars (revColName y).data nf.2.data = true → nf.1 ≠ c) →
      getCol (ys.foldl (ivStep fs) acc) c = getCol acc c := by
  intro ys
  induction ys with
  | nil => intro acc _; rfl
  | cons y ys2 ih =>
    intro acc h
    rw [List.foldl_cons,
      ih _ (fun y2 hy2 => h y2 (List.mem_cons_of_mem y hy2)),
      getCol_ivStep_ne fs acc y c hflag (h y (List.mem_cons_self y ys2))]

theorem hasCol_yearsFold_mono (fs : List (String × String)) (c : String) :
    ∀ (ys : List ℤ) (acc : Table), hasCol acc c = true →
      hasCol (ys.foldl (ivStep fs) acc) c = true := by
  intro ys
  induction ys with
  | nil => intro acc h; exact h
  | cons y ys2 ih =>
    intro acc h
    rw [List.foldl_cons]
    exact ih _ (hasCol_ivStep_mono fs acc y c h)

theorem ivMask_getElem (n : ℕ) (r : Table) (y : ℤ) (i : ℕ)
    (hWF : TWF n r) (hi : i < n) : (ivMask r y)[i]? = some (flagCond r y i) := by
  have hbase : (List.replicate (nrows r) false)[i]? = some false :=
    List.getElem?_replicate_of_lt (by rw [hWF.2]; exact hi)
  unfold ivMask colMask flagCond
  cases h1 : getCol r (revColName y) with
  | none =>
    cases h2 : getCol r (ebitdaColName y) with
    | none => simp [getCell, h1, h2, hbase]
    | some col2 =>
      have hl2 : i < col2.length := by rw [getCol_length n r _ col2 hWF h2]; exact hi
      have hc2 : col2[i]? = some col2[i] := List.getElem?_eq_getElem hl2
      simp [getCell, h1, h2, orMasks, List.getElem?_zipWith, hbase, List.getElem?_map, hc2]
  | some col1 =>
    have hl1 : i < col1.length := by rw [getCol_length n r _ col1 hWF h1]; exact hi
    have hc1 : col1[i]? = some col1[i] := List.getElem?_eq_getElem hl1
    cases h2 : getCol r (ebitdaColName y) with
    | none =>
      simp [getCell, h1, h2, orMasks, List.getElem?_zipWith, hbase, List.getElem?_map, hc1]
    | some col2 =>
      have hl2 : i < col2.length := by rw [getCol_length n r _ col2 hWF h2]; exact hi
      have hc2 : col2[i]? = some col2[i] := List.getElem?_eq_getElem hl2
      simp [getCell, h1, h2, orMasks, List.getElem?_zipWith, hbase, List.getElem?_map,
        hc1, hc2]

theorem getCell_maskSet_write (n : ℕ) (t : Table) (k : String) (mask : List Bool)
    (v : Cell) (i : ℕ) (col : List Cell) (hWF : TWF n t) (hi : i < n)
    (hk : getCol t k = some col) (hm : mask[i]? = some true) :
    getCell (maskSet t k mask v) k i = some v := by
  unfold maskSet
  rw [hk]
  unfold getCell
  rw [getCol_setCol_self]
  have hl : i < col.length := by rw [getCol_length n t k col hWF hk]; exact hi
  have hc : col[i]? = some col[i] := List.getElem?_eq_getElem hl
  simp [List.getElem?_zipWith, hm, hc]

theorem getCell_maskSet_same (n : ℕ) (t : Table) (k : String) (mask : List Bool)
    (v : Cell) (i : ℕ) (_hWF : TWF n t) (hi : i < n) (hml : mask.length = n)
    (h : getCell t k i = some v) :
    getCell (maskSet t k mask v) k i = some v := by
  unfold maskSet
  cases hk : getCol t k with
  | none => unfold getCell at h ⊢; rw [hk] at h; exact absurd h (by simp)
  | some col =>
    unfold getCell at h ⊢
    rw [hk] at h
    rw [getCol_setCol_self]
    have hlb : i < mask.length := by rw [hml]; exact hi
    have hb : mask[i]? = some mask[i] := List.getElem?_eq_getElem hlb
    simp only [Option.bind_eq_bind, Option.some_bind] at h
    simp only [Option.bind_eq_bind, Option.some_bind, List.getElem?_zipWith, hb, h]
    cases mask[i] <;> rfl

theorem getCell_nullFold_missing (n : ℕ) (mask : List Bool) (hml : mask.length = n)
    (nm : String) (i : ℕ) (hi : i < n) :
    ∀ (deps : List (String × String)) (acc : Table), TWF n acc →
      getCell acc nm i = some Cell.missing →
      getCell (deps.foldl (fun acc nf =>
        if hasCol acc nf.1 then maskSet acc nf.1 mask Cell.missing else acc) acc) nm i
        = some Cell.missing := by
  intro deps
  induction deps with
  | nil => intro acc _ h; exact h
  | cons d ds ih =>
    intro acc hWF h
    rw [List.foldl_cons]
    have hstep : getCell
        (if hasCol acc d.1 then maskSet acc d.1 mask Cell.missing else acc) nm i
        = some Cell.missing := by
      split
      · by_cases hd : d.1 = nm
        · subst hd
          exact getCell_maskSet_same n acc d.1 mask Cell.missing i hWF hi hml h
        · unfold getCell
          rw [getCol_maskSet_ne acc d.1 mask Cell.missing nm (fun hh => hd hh.symm)]
          exact h
      · exact h
    have hWF2 : TWF n (if hasCol acc d.1 then maskSet acc d.1 mask Cell.missing else acc) := by
      split
      · exact TWF_maskSet n acc d.1 mask Cell.missing hWF hml
      · exact hWF
    exact ih _ hWF2 hstep

theorem getCell_nullFold_write (n : ℕ) (mask : List Bool) (hml : mask.length = n)
    (nm : String) (i : ℕ) (hi : i < n) (hmi : mask[i]? = some true) :
    ∀ (deps : List (String × String)) (acc : Table), TWF n acc →
      hasCol acc nm = true → (∃ d ∈ deps, d.1 = nm) →
      getCell (deps.foldl (fun acc nf =>
        if hasCol acc nf.1 then maskSet acc nf.1 mask Cell.missing else acc) acc) nm i
        = some Cell.missing := by
  intro deps
  induction deps with
  | nil =>
    intro acc _ _ hex
    obtain ⟨d, hd, _⟩ := hex
    cases hd
  | cons d ds ih =>
    intro acc hWF hhas hex
    rw [List.foldl_cons]
    by_cases hd : d.1 = nm
    · have hcol : ∃ col, getCol acc nm = some col := by
        cases hc : getCol acc nm with
        | none => rw [hasCol, hc] at hhas; exact absurd hhas (by simp)
        | some col => exact ⟨col, rfl⟩
      obtain ⟨col, hcol⟩ := hcol
      have hguard : hasCol acc d.1 = true := by rw [hd, hasCol, hcol]; rfl
      rw [if_pos hguard]
      have hset : getCell (maskSet acc d.1 mask Cell.missing) nm i = some Cell.missing := by
        rw [hd]
        exact getCell_maskSet_write n acc nm mask Cell.missing i col hWF hi hcol hmi
      exact getCell_nullFold_missing n mask hml nm i hi ds _
        (by rw [hd]; exact TWF_maskSet n acc nm mask Cell.missing hWF hml) hset
    · have hex2 : ∃ e ∈ ds, e.1 = nm := by
        obtain ⟨e, he, henm⟩ := hex
        rcases List.mem_cons.mp he with rfl | he2
        · exact absurd henm hd
        · exact ⟨e, he2, henm⟩
      have hWF2 : TWF n (if hasCol acc d.1 then maskSet acc d.1 mask Cell.missing else acc) := by
        split
        · exact TWF_maskSet n acc d.1 mask Cell.missing hWF hml
        · exact hWF
      have hhas2 : hasCol (if hasCol acc d.1 then maskSet acc d.1 mask Cell.missing else acc)
          nm = true := by
        split
        · exact hasCol_maskSet_mono acc d.1 nm mask Cell.missing hhas
        · exact hhas
      exact ih _ hWF2 hhas2 hex2

theorem getCell_ivStep_flag_pres (n : ℕ) (fs : List (String × String)) (r : Table)
    (y : ℤ) (i : ℕ) (hWF : TWF n r) (hi : i < n)
    (hfl : ∀ nf ∈ fs, nf.1 ≠ "investment_vehicle")
    (h : getCell r "investment_vehicle" i = some (Cell.boolv true)) :
    getCell (ivStep fs r y) "investment_vehicle" i = some (Cell.boolv true) := by
  unfold ivStep
  have hml := length_ivMask n r y hWF
  have h1 : getCell (maskSet r "investment_vehicle" (ivMask r y) (Cell.boolv true))
      "investment_vehicle" i = some (Cell.boolv true) :=
    getCell_maskSet_same n r _ (ivMask r y) (Cell.boolv true) i hWF hi hml h
  have h2 := getCol_nullFold_ne (ivMask r y) "investment_vehicle"
    (fs.filter (fun nf => containsChars (revColName y).data nf.2.data))
    (maskSet r "investment_vehicle" (ivMask r y) (Cell.boolv true))
    (fun d hd => hfl d (List.mem_filter.mp hd).1)
  unfold getCell at h1 ⊢
  rw [h2]
  exact h1

theorem getCell_ivStep_missing_pres (n : ℕ) (fs : List (String × String)) (r : Table)
    (y : ℤ) (i : ℕ) (nm : String) (hWF : TWF n r) (hi : i < n)
    (hnm : nm ≠ "investment_vehicle") (h : getCell r nm i = some Cell.missing) :
    getCell (ivStep fs r y) nm i = some Cell.missing := by
  unfold ivStep
  have hml := length_ivMask n r y hWF
  have hr1 : getCell (maskSet r "investment_vehicle" (ivMask r y) (Cell.boolv true)) nm i
      = some Cell.missing := by
    unfold getCell
    rw [getCol_maskSet_ne r _ _ _ nm hnm]
    exact h
  exact getCell_nullFold_missing n (ivMask r y) hml nm i hi _ _
    (TWF_maskSet n r _ _ _ hWF hml) hr1

theorem ivStep_sets_flag (n : ℕ) (fs : List (String × String)) (r : Table) (y : ℤ)
    (i : ℕ) (hWF : TWF n r) (hi : i < n)
    (hflagcol : hasCol r "investment_vehicle" = true)
    (hfl : ∀ nf ∈ fs, nf.1 ≠ "investment_vehicle")
    (hcond : flagCond r y i = true) :
    getCell (ivStep fs r y) "investment_vehicle" i = some (Cell.boolv true) := by
  unfold ivStep
  have hml := length_ivMask n r y hWF
  obtain ⟨col, hcol⟩ : ∃ col, getCol r "investment_vehicle" = some col := by
    cases hc : getCol r "investment_vehicle" with
    | none => rw [hasCol, hc] at hflagcol; exact absurd hflagcol (by simp)
    | some col => exact ⟨col, rfl⟩
  have hmi : (ivMask r y)[i]? = some true := by
    rw [ivMask_getElem n r y i hWF hi, hcond]
  have h1 := getCell_maskSet_write n r "investment_vehicle" (ivMask r y)
    (Cell.boolv true) i col hWF hi hcol hmi
  have h2 := getCol_nullFold_ne (ivMask r y) "investment_vehicle"
    (fs.filter (fun nf => containsChars (revColName y).data nf.2.data))
    (maskSet r "investment_vehicle" (ivMask r y) (Cell.boolv true))
    (fun d hd => hfl d (List.mem_filter.mp hd).1)
  unfold getCell at h1 ⊢
  rw [h2]
  exact h1

theorem ivStep_nulls (n : ℕ) (fs : List (String × String)) (r : Table) (y : ℤ)
    (i : ℕ) (nm e : String) (hWF : TWF n r) (hi : i < n)
    (hmem : (nm, e) ∈ fs) (hcont : containsChars (revColName y).data e.data = true)
    (hnmhas : hasCol r nm = true) (hcond : flagCond r y i = true) :
    getCell (ivStep fs r y) nm i = some Cell.missing := by
  unfold ivStep
  have hml := length_ivMask n r y hWF
  have hmi : (ivMask r y)[i]? = some true := by
    rw [ivMask_getElem n r y i hWF hi, hcond]
  apply getCell_nullFold_write n (ivMask r y) hml nm i hi hmi
  · exact TWF_maskSet n r _ _ _ hWF hml
  · exact hasCol_maskSet_mono r _ nm _ _ hnmhas
  · exact ⟨(nm, e), List.mem_filter.mpr ⟨hmem, hcont⟩, rfl⟩

theorem yearsFold_flag_pres (n : ℕ) (fs : List (String × String)) (i : ℕ) (hi : i < n)
    (hfl : ∀ nf ∈ fs, nf.1 ≠ "investment_vehicle") :
    ∀ (ys : List ℤ) (acc : Table), TWF n acc →
      getCell acc "investment_vehicle" i = some (Cell.boolv true) →
      getCell (ys.foldl (ivStep fs) acc) "investment_vehicle" i = some (Cell.boolv true) := by
  intro ys
  induction ys with
  | nil => intro acc _ h; exact h
  | cons y ys2 ih =>
    intro acc hWF h
    rw [List.foldl_cons]
    exact ih _ (TWF_ivStep n fs acc y hWF)
      (getCell_ivStep_flag_pres n fs acc y i hWF hi hfl h)

theorem yearsFold_missing_pres (n : ℕ) (fs : List (String × String)) (i : ℕ)
    (nm : String) (hi : i < n) (hnm : nm ≠ "investment_vehicle") :
    ∀ (ys : List ℤ) (acc : Table), TWF n acc →
      getCell acc nm i = some Cell.missing →
      getCell (ys.foldl (ivStep fs) acc) nm i = some Cell.missing := by
  intro ys
  induction ys with
  | nil => intro acc _ h; exact h
  | cons y ys2 ih =>
    intro acc hWF h
    rw [List.foldl_cons]
    exact ih _ (TWF_ivStep n fs acc y hWF)
      (getCell_ivStep_missing_pres n fs acc y i nm hWF hi hnm h)

/-- C7: `flag_investment_vehicles` marks a record `True` when, for some
requested year `Y`, its revenue column `Müügitulu_Y` equals exactly the
sentinel `1.0` or its `ebitda_margin_Y` column exceeds `1.0` (`flagCond`);
the flag accumulates by logical OR across years and is never unset once set
(a record satisfying the condition for any one requested year ends flagged,
whatever the later years do); and every formula whose expression textually
contains `Müügitulu_Y` has its output value set to missing for the records
flagged in year `Y`.  The two side conditions exclude formula sets that
overwrite the flagger's own inputs (a formula named after the flag column or
a revenue column, or a formula named `ebitda_margin_Y` textually referencing
a different year's revenue column), under which the loop's reads at year `Y`
would see values an earlier iteration already overwrote. -/
theorem flag_investment_vehicles_flags_and_nulls
    (data : Table) (years : List ℤ) (formulas : List (String × String))
    (n i : ℕ) (y : ℤ)
    (hWF : ∀ p ∈ data, p.2.length = n) (hn : nrows data = n) (hi : i < n)
    (hns : namesSafe formulas years = true)
    (hes : ebitdaSafe formulas years y = true)
    (hy : y ∈ years)
    (hcond : flagCond data y i = true) :
    getCell (flag_investment_vehicles data years formulas) "investment_vehicle" i
        = some (Cell.boolv true) ∧
    ∀ nf ∈ formulas, containsChars (revColName y).data nf.2.data = true →
      hasCol data nf.1 = true →
      getCell (flag_investment_vehicles data years formulas) nf.1 i
        = some Cell.missing := by
  have hTWF : TWF n data := ⟨hWF, hn⟩
  have hnsP : ∀ nf ∈ formulas, nf.1 ≠ "investment_vehicle" ∧
      ∀ yq ∈ years, nf.1 ≠ revColName yq := by
    intro nf hnf
    have hx := List.all_eq_true.mp hns nf hnf
    simp only [Bool.and_eq_true, bne_iff_ne, List.all_eq_true] at hx
    exact ⟨hx.1, fun yq hyq => by simpa using hx.2 yq hyq⟩
  have hesP : ∀ nf ∈ formulas, nf.1 = ebitdaColName y →
      ∀ yq ∈ years, yq ≠ y → containsChars (revColName yq).data nf.2.data = false := by
    intro nf hnf heq yq hyq hne
    have hx := List.all_eq_true.mp hes nf hnf
    simp only [Bool.or_eq_true, bne_iff_ne] at hx
    rcases hx with hx | hx
    · exact absurd heq hx
    · have hx2 := List.all_eq_true.mp hx yq hyq
      simp only [Bool.or_eq_true, beq_iff_eq] at hx2
      rcases hx2 with hx2 | hx2
      · exact absurd hx2 hne
      · simpa using hx2
  have hflnames : ∀ nf ∈ formulas, nf.1 ≠ "investment_vehicle" :=
    fun nf h => (hnsP nf h).1
  obtain ⟨l1, l2, hsplit, hnotin⟩ := mem_first_split hy
  subst hsplit
  simp only [flag_investment_vehicles]
  rw [List.foldl_append, List.foldl_cons]
  have hTWF0 : TWF n (setCol data "investment_vehicle"
      (List.replicate (nrows data) (Cell.boolv false))) :=
    TWF_setCol n data _ _ hTWF (by rw [List.length_replicate, hn])
  have hTWFA := TWF_yearsFold n formulas l1 _ hTWF0
  have hrev_ne_flag := revColName_ne_flag y
  have heb_ne_flag := ebitdaColName_ne_flag y
  have hymem : y ∈ l1 ++ y :: l2 := List.mem_append_right l1 (List.mem_cons_self y l2)
  have hrevA : getCol (l1.foldl (ivStep formulas)
      (setCol data "investment_vehicle" (List.replicate (nrows data) (Cell.boolv false))))
      (revColName y) = getCol data (revColName y) := by
    rw [getCol_yearsFold_ne formulas (revColName y) hrev_ne_flag l1 _ ?_,
      getCol_setCol_ne data _ _ _ (Ne.symm hrev_ne_flag)]
    intro y2 _ nf hnf _
    exact (hnsP nf hnf).2 y hymem
  have hebA : getCol (l1.foldl (ivStep formulas)
      (setCol data "investment_vehicle" (List.replicate (nrows data) (Cell.boolv false))))
      (ebitdaColName y) = getCol data (ebitdaColName y) := by
    rw [getCol_yearsFold_ne formulas (ebitdaColName y) heb_ne_flag l1 _ ?_,
      getCol_setCol_ne data _ _ _ (Ne.symm heb_ne_flag)]
    intro y2 hy2 nf hnf hcontains heq
    have hy2mem : y2 ∈ l1 ++ y :: l2 := List.mem_append_left _ hy2
    have hy2ne : y2 ≠ y := fun hh => hnotin (hh ▸ hy2)
    have := hesP nf hnf heq y2 hy2mem hy2ne
    rw [hcontains] at this
    exact absurd this (by simp)
  have hcondA : flagCond (l1.foldl (ivStep formulas)
      (setCol data "investment_vehicle" (List.replicate (nrows data) (Cell.boolv false))))
      y i = true := by
    unfold flagCond getCell at hcond ⊢
    rw [hrevA, hebA]
    exact hcond
  have hflagcolA : hasCol (l1.foldl (ivStep formulas)
      (setCol data "investment_vehicle" (List.replicate (nrows data) (Cell.boolv false))))
      "investment_vehicle" = true := by
    apply hasCol_yearsFold_mono
    simp [hasCol, getCol_setCol_self]
  have hstep := ivStep_sets_flag n formulas _ y i hTWFA hi hflagcolA hflnames hcondA
  have hTWFB := TWF_ivStep n formulas (l1.foldl (ivStep formulas)
    (setCol data "investment_vehicle" (List.replicate (nrows data) (Cell.boolv false)))) y hTWFA
  constructor
  · exact yearsFold_flag_pres n formulas i hi hflnames l2 _ hTWFB hstep
  · intro nf hnf hcont hhascol
    obtain ⟨nm, e⟩ := nf
    have hhasA : hasCol (l1.foldl (ivStep formulas)
        (setCol data "investment_vehicle" (List.replicate (nrows data) (Cell.boolv false))))
        nm = true := by
      apply hasCol_yearsFold_mono
      simp [hasCol_setCol, hhascol]
    have hnull := ivStep_nulls n formulas _ y i nm e hTWFA hi hnf hcont hhasA hcondA
    exact yearsFold_missing_pres n formulas i nm hi (hflnames (nm, e) hnf) l2 _ hTWFB hnull

/-- C7 witness: a two-row table where record 0 has sentinel revenue for 2023;
it gets flagged and its revenue-dependent `ebitda_margin_2023` output is
nulled. -/
theorem flag_investment_vehicles_flags_and_nulls_witness :
    getCell (flag_investment_vehicles
        [("company", [Cell.num 7, Cell.num 8]),
         ("Müügitulu_2023", [Cell.num 1, Cell.num 5]),
         ("ebitda_margin_2023", [Cell.num 2, Cell.num (1/2)])]
        [2023] [("ebitda_margin_2023", ebitda_margin 2023)])
      "investment_vehicle" 0 = some (Cell.boolv true) ∧
    getCell (flag_investment_vehicles
        [("company", [Cell.num 7, Cell.num 8]),
         ("Müügitulu_2023", [Cell.num 1, Cell.num 5]),
         ("ebitda_margin_2023", [Cell.num 2, Cell.num (1/2)])]
        [2023] [("ebitda_margin_2023", ebitda_margin 2023)])
      "ebitda_margin_2023" 0 = some Cell.missing :=
  ⟨(flag_investment_vehicles_flags_and_nulls
      [("company", [Cell.num 7, Cell.num 8]),
       ("Müügitulu_2023", [Cell.num 1, Cell.num 5]),
       ("ebitda_margin_2023", [Cell.num 2, Cell.num (1/2)])]
      [2023] [("ebitda_margin_2023", ebitda_margin 2023)] 2 0 2023
      (by with_unfolding_all decide) (by with_unfolding_all decide)
      (by with_unfolding_all decide) (by with_unfolding_all decide)
      (by with_unfolding_all decide) (by with_unfolding_all decide)
      (by with_unfolding_all decide)).1,
   (flag_investment_vehicles_flags_and_nulls
      [("company", [Cell.num 7, Cell.num 8]),
       ("Müügitulu_2023", [Cell.num 1, Cell.num 5]),
       ("ebitda_margin_2023", [Cell.num 2, Cell.num (1/2)])]
      [2023] [("ebitda_margin_2023", ebitda_margin 2023)] 2 0 2023
      (by with_unfolding_all decide) (by with_unfolding_all decide)
      (by with_unfolding_all decide) (by with_unfolding_all decide)
      (by with_unfolding_all decide) (by with_unfolding_all decide)
      (by with_unfolding_all decide)).2
     ("ebitda_margin_2023", ebitda_margin 2023) (by with_unfolding_all decide)
     (by with_unfolding_all decide) (by with_unfolding_all decide)⟩
